import Mathlib

/-!
Verification development for the `gh-project-pilot` CLI (shallow embedding).

The TypeScript source is embedded as executable Lean definitions:
pure functions become Lean functions on `String` / `List Char`; the
filesystem, the YAML/JSON readers and the external `gh` capability are
modelled as explicit parameters (read results as `Except`, external call
outcomes as an oracle list); JavaScript `Record` objects become
insertion-ordered association lists.  `String.prototype.trim` / regex
`\s` are modelled as the usual JavaScript whitespace set.

One caveat on comparators: the source sorts backlog identifiers with
`String.prototype.localeCompare`, an ICU locale-sensitive collation whose
result depends on the runtime's collation data (under ICU,
`"B".localeCompare("a") > 0` although `'B' < 'a'` by code point).  The
embedding carries a code-point comparison (`lexLt` / `localeLe`) only so
that `sortBacklog` and `assertUniqueItemIds` remain executable; no theorem
below asserts that this stand-in agrees with the ICU order, and no claim
about the resulting element order is settled through it.
-/

namespace ProjectPilot

/-! ## Character and string primitives (JavaScript semantics) -/

/-- JavaScript whitespace characters (the ones `String.prototype.trim`
removes and regex `\s` matches): space, tab, line feed, carriage return,
vertical tab, form feed, no-break space and the BOM. -/
def isJsWhitespace (c : Char) : Bool :=
  c = ' ' || c = '\t' || c = '\n' || c = '\r' ||
  c = Char.ofNat 11 || c = Char.ofNat 12 || c = Char.ofNat 160 || c = Char.ofNat 65279

/-- JavaScript `String.prototype.trim` on a character list. -/
def jsTrim (cs : List Char) : List Char :=
  ((cs.dropWhile isJsWhitespace).reverse.dropWhile isJsWhitespace).reverse

/-- Code-point lexicographic strict order on character lists.  The source's
sort comparators call `String.prototype.localeCompare`, an ICU
locale-sensitive collation that orders mixed-case ASCII differently from
code points (e.g. `"B".localeCompare("a") > 0` under ICU while `'B' < 'a'`
by code point); this code-point order is only an executable stand-in kept
inside the definitions, and it is nowhere asserted to coincide with the
ICU order. -/
def lexLt : List Char → List Char → Bool
  | [], [] => false
  | [], _ :: _ => true
  | _ :: _, [] => false
  | a :: as, b :: bs => if a = b then lexLt as bs else decide (a < b)

/-- Executable stand-in for `a.localeCompare(b) <= 0` on strings (see
`lexLt`: not asserted to match the ICU collation the source uses). -/
def localeLe (a b : String) : Bool := ! lexLt b.data a.data

/-- JavaScript `Array.prototype.join(",")`. -/
def joinComma : List String → String
  | [] => ""
  | [s] => s
  | s :: rest => s ++ "," ++ joinComma rest

/-- JavaScript `Array.prototype.join(", ")`. -/
def joinCommaSpace : List String → String
  | [] => ""
  | [s] => s
  | s :: rest => s ++ ", " ++ joinCommaSpace rest

/-- JavaScript `Array.prototype.join("\n")`. -/
def joinNewline : List String → String
  | [] => ""
  | [s] => s
  | s :: rest => s ++ "\n" ++ joinNewline rest

/-! ## Publish data model (source `index.ts`, types `SummaryRow`,
`PublishState`, `PublishPayload`, `ProjectDraftState`) -/

/-- A publish payload: a summary row joined with its draft body and the
optional owner-derived assignees (source type `PublishPayload`).  An empty
`assignees` list models the payload without the optional field, which is
how the source builds it (`...(assignees?.length ? { assignees } : {})`). -/
structure PublishPayload where
  id : String
  title : String
  body : String
  labels : List String
  assignees : List String := []
deriving DecidableEq

/-- One value of the publish ledger's `created` record:
`{ title, labels, url?, number? }`. -/
structure CreatedRecord where
  title : String
  labels : List String
  url : Option String := none
  number : Option Int := none
deriving DecidableEq

/-- The publish resume ledger (source type `PublishState`): a version tag and
the `created` object, modelled as an insertion-ordered association list from
backlog identifier to `CreatedRecord`. -/
structure PublishState where
  version : Int
  created : List (String × CreatedRecord)
deriving DecidableEq

/-- Key-presence test on the ledger's `created` object: the model of the
JavaScript truthiness test `state.created[payload.id]` (present values are
objects, hence truthy). -/
def createdHasId (st : PublishState) (id : String) : Bool :=
  st.created.any (fun kv => kv.fst = id)

/-- JavaScript object property assignment `m[k] = v`: overwrite in place when
the key exists, otherwise append at the end (insertion order preserved). -/
def recordSet (m : List (String × CreatedRecord)) (k : String) (v : CreatedRecord) :
    List (String × CreatedRecord) :=
  if m.any (fun kv => kv.fst = k) then
    m.map (fun kv => if kv.fst = k then (k, v) else kv)
  else m ++ [(k, v)]

/-- Source `applyLimit`: `if (!limit || limit <= 0) return items; return
items.slice(0, limit)`.  A missing limit, `0` (falsy) and negative values all
leave the batch unchanged. -/
def applyLimit {α : Type} (items : List α) (limit : Option Int) : List α :=
  match limit with
  | none => items
  | some n => if n ≤ 0 then items else items.take n.toNat

/-- The publish action's candidate selection (source lines
`const selected = applyLimit(payloads, options.limit)` followed by
`const toPublish = resume ? selected.filter((payload) =>
!state.created[payload.id]) : selected`): the limit is applied first, then
the resume filter. -/
def selectToPublish (payloads : List PublishPayload) (limit : Option Int)
    (resume : Bool) (st : PublishState) : List PublishPayload :=
  let selected := applyLimit payloads limit
  if resume then selected.filter (fun p => ! createdHasId st p.id) else selected

/-- Modelled from the spec's words for claim C1 (not from the source): the
claimed selection order, in which the resume filter runs first and the limit
truncates the already-filtered batch. -/
def selectToPublishSpecOrder (payloads : List PublishPayload) (limit : Option Int)
    (resume : Bool) (st : PublishState) : List PublishPayload :=
  let filtered :=
    if resume then payloads.filter (fun p => ! createdHasId st p.id) else payloads
  applyLimit filtered limit

/-! ## The execute loop and the dry-run branch of the publish action -/

/-- Outcome of one successful `gh issue create` call as consumed by the
source: the issue URL and number parsed from the tool's stdout (either may be
missing). -/
structure GhResult where
  url : Option String := none
  number : Option Int := none
deriving DecidableEq

/-- JavaScript truthiness guard `created.url ? { url: created.url } : {}`:
an empty string is falsy, so it is dropped like a missing value. -/
def truthyStr : Option String → Option String
  | none => none
  | some s => if s = "" then none else some s

/-- JavaScript truthiness guard `created.number ? { number } : {}`: zero is
falsy, so it is dropped like a missing value. -/
def truthyNum : Option Int → Option Int
  | none => none
  | some n => if n = 0 then none else some n

/-- The ledger record stored after a successful creation (source:
`state.created[payload.id] = { title, labels, ...(created.url ? { url } :
{}), ...(created.number ? { number } : {}) }`). -/
def mkCreatedRecord (p : PublishPayload) (g : GhResult) : CreatedRecord :=
  { title := p.title, labels := p.labels,
    url := truthyStr g.url, number := truthyNum g.number }

/-- Result of running the execute loop: the final in-memory ledger, the
sequence of whole-file ledger writes (`savePublishState` serialises the
entire ledger each time), the payloads for which the external capability was
invoked, and whether the loop ran to completion. -/
structure LoopResult where
  finalState : PublishState
  writes : List PublishState
  calls : List PublishPayload
  ok : Bool
deriving DecidableEq

/-- The publish execute loop (source `for (const payload of toPublish) {...}`):
invoke the external create capability, and on success immediately update the
in-memory ledger and flush it whole to disk before the next candidate.  The
external capability is modelled by an oracle list of outcomes consumed one
per call; `none` (or an exhausted oracle) is a thrown `execFileSync` failure,
which aborts the run. -/
def publishLoop : List PublishPayload → List (Option GhResult) → PublishState → LoopResult
  | [], _, st => ⟨st, [], [], true⟩
  | p :: _, [], st => ⟨st, [], [p], false⟩
  | p :: ps, o :: os, st =>
    match o with
    | none => ⟨st, [], [p], false⟩
    | some g =>
      let st' : PublishState := ⟨st.version, recordSet st.created p.id (mkCreatedRecord p g)⟩
      let r := publishLoop ps os st'
      ⟨r.finalState, st' :: r.writes, p :: r.calls, r.ok⟩

/-- On-disk ledger after a run: the last whole-file write if any, otherwise
whatever the file held before the run. -/
def finalDisk (d0 : Option PublishState) (writes : List PublishState) : Option PublishState :=
  match writes.getLast? with
  | some w => some w
  | none => d0

/-! ## Resume-state files: JSON values, schemas and the tolerant loaders -/

/-- JSON values as produced by `JSON.parse` (numbers restricted to the
integers, which is all the state-file schemas accept). -/
inductive Json where
  | null : Json
  | bool : Bool → Json
  | num : Int → Json
  | str : String → Json
  | arr : List Json → Json
  | obj : List (String × Json) → Json

/-- First-key lookup in a JSON object (after `JSON.parse`, keys are
effectively unique). -/
def jsonLookup (fields : List (String × Json)) (k : String) : Option Json :=
  (fields.find? (fun kv => kv.fst = k)).map (fun kv => kv.snd)

/-- Zod `z.string().optional()` on an object field. -/
def parseOptionalString (v : Option Json) : Except String (Option String) :=
  match v with
  | none => .ok none
  | some (.str s) => .ok (some s)
  | some _ => .error "expected string"

/-- Zod `z.number().int().positive().optional()` on an object field. -/
def parseOptionalPosInt (v : Option Json) : Except String (Option Int) :=
  match v with
  | none => .ok none
  | some (.num n) => if 0 < n then .ok (some n) else .error "expected positive integer"
  | some _ => .error "expected number"

/-- Zod `z.array(z.string())` on an object field. -/
def parseStringArray (v : Option Json) : Except String (List String) :=
  match v with
  | some (.arr xs) =>
    xs.mapM (fun j => match j with
      | .str s => Except.ok s
      | _ => Except.error "expected string in array")
  | _ => .error "expected array"

/-- One value of `PublishStateSchema`'s `created` record:
`{ title: string, url?: string, number?: positive int, labels: string[] }`. -/
def parseCreatedEntry (j : Json) : Except String CreatedRecord :=
  match j with
  | .obj fields =>
    match jsonLookup fields "title" with
    | some (.str t) => do
      let url ← parseOptionalString (jsonLookup fields "url")
      let number ← parseOptionalPosInt (jsonLookup fields "number")
      let labels ← parseStringArray (jsonLookup fields "labels")
      pure { title := t, labels := labels, url := url, number := number }
    | _ => .error "expected title string"
  | _ => .error "expected object"

/-- The versioned schema of the publish ledger file (source
`PublishStateSchema`): `{ version: 1, created: Record<string, entry> }`. -/
def publishStateSchemaParse (j : Json) : Except String PublishState :=
  match j with
  | .obj fields =>
    match jsonLookup fields "version" with
    | some (.num 1) =>
      match jsonLookup fields "created" with
      | some (.obj entries) => do
        let parsed ← entries.mapM (fun kv => do
          let r ← parseCreatedEntry kv.snd
          pure (kv.fst, r))
        pure ⟨1, parsed⟩
      | _ => .error "expected created record"
    | _ => .error "expected version 1"
  | _ => .error "expected object"

/-- The project-draft resume ledger (source type `ProjectDraftState`):
identifier to `{ title }`. -/
structure ProjectDraftState where
  version : Int
  created : List (String × String)
deriving DecidableEq

/-- The versioned schema of the project-draft ledger file (source
`ProjectDraftStateSchema`): `{ version: 1, created: Record<string,
{ title: string }> }`. -/
def projectDraftStateSchemaParse (j : Json) : Except String ProjectDraftState :=
  match j with
  | .obj fields =>
    match jsonLookup fields "version" with
    | some (.num 1) =>
      match jsonLookup fields "created" with
      | some (.obj entries) => do
        let parsed ← entries.mapM (fun kv =>
          match kv.snd with
          | .obj inner =>
            match jsonLookup inner "title" with
            | some (.str t) => Except.ok (kv.fst, t)
            | _ => Except.error "expected title string"
          | _ => Except.error "expected object")
        pure ⟨1, parsed⟩
      | _ => .error "expected created record"
    | _ => .error "expected version 1"
  | _ => .error "expected object"

/-- What `tryLoadPublishState` returns: the state to use, whether the file
was loaded, and the captured failure message if not. -/
structure LoadResult where
  state : PublishState
  loaded : Bool
  error : Option String
deriving DecidableEq

/-- Result type of `tryLoadProjectDraftState`. -/
structure DraftLoadResult where
  state : ProjectDraftState
  loaded : Bool
  error : Option String
deriving DecidableEq

/-- Source `tryLoadPublishState`: the whole read-parse-validate pipeline runs
inside a `try`; the input models `readFileSync` followed by `JSON.parse`
(`.error` is a thrown read or syntax error with its message).  Any failure
degrades to the empty version-1 state with the message captured. -/
def tryLoadPublishState (input : Except String Json) : LoadResult :=
  match input with
  | .error e => ⟨⟨1, []⟩, false, some e⟩
  | .ok j =>
    match publishStateSchemaParse j with
    | .ok st => ⟨st, true, none⟩
    | .error e => ⟨⟨1, []⟩, false, some e⟩

/-- Source `tryLoadProjectDraftState`, same contract as
`tryLoadPublishState`. -/
def tryLoadProjectDraftState (input : Except String Json) : DraftLoadResult :=
  match input with
  | .error e => ⟨⟨1, []⟩, false, some e⟩
  | .ok j =>
    match projectDraftStateSchemaParse j with
    | .ok st => ⟨st, true, none⟩
    | .error e => ⟨⟨1, []⟩, false, some e⟩

/-- Whether the read-parse-validate pipeline of the publish ledger succeeds
on a given read result. -/
def publishLoadSucceeds (input : Except String Json) : Bool :=
  match input with
  | .error _ => false
  | .ok j =>
    match publishStateSchemaParse j with
    | .ok _ => true
    | .error _ => false

/-- Whether the read-parse-validate pipeline of the project-draft ledger
succeeds on a given read result. -/
def draftLoadSucceeds (input : Except String Json) : Bool :=
  match input with
  | .error _ => false
  | .ok j =>
    match projectDraftStateSchemaParse j with
    | .ok _ => true
    | .error _ => false

/-! ## The publish action: messages, dry-run branch, execute branch -/

/-- The `${error ? ` (${error})` : ""}` suffix of the resume warning:
a missing or empty (falsy) message contributes nothing. -/
def jsTemplateError : Option String → String
  | none => ""
  | some e => if e = "" then "" else " (" ++ e ++ ")"

/-- The console lines printed by `if (resume && existsSync(stateFile))`:
either the resuming line or the could-not-parse warning.  When the state
file does not exist, nothing is printed. -/
def resumeMessages (resume fileExists : Bool) (lr : LoadResult) (stateFile : String) :
    List String :=
  if resume && fileExists then
    if lr.loaded then
      ["Resuming from " ++ stateFile ++ " (" ++ toString lr.state.created.length ++ " recorded)"]
    else
      ["Warning: could not parse " ++ stateFile ++ "; proceeding without resume" ++
        jsTemplateError lr.error]
  else []

/-- The ` --assignee a,b` suffix of a dry-run line (empty when the payload
has no assignees, mirroring `payload.assignees?.length ? ... : ""`). -/
def assigneeFlags (p : PublishPayload) : String :=
  if p.assignees.isEmpty then "" else " --assignee " ++ joinComma p.assignees

/-- One line of dry-run output (source: `[dry-run] gh issue create --repo
... --title ... --label ...` plus the assignee flags). -/
def dryRunIssueLine (repo : String) (p : PublishPayload) : String :=
  "[dry-run] gh issue create --repo " ++ repo ++ " --title " ++ p.title ++
    " --label " ++ joinComma p.labels ++ assigneeFlags p

/-- Observable outcome of one `publish` action run: console output, the
payloads sent to the external capability, the sequence of whole-file ledger
writes, and whether the action completed without a thrown error. -/
structure ActionResult where
  output : List String
  calls : List PublishPayload
  writes : List PublishState
  ok : Bool
deriving DecidableEq

/-- The `publish` command action (source lines 184-228), from the resolved
payload batch onward: load the ledger, apply the limit, apply the resume
filter, print the resume or warning line, then either print the dry-run
preview or run the execute loop against the external-capability oracle. -/
def runPublishAction (repo : String) (payloads : List PublishPayload)
    (limit : Option Int) (resume dryRun fileExists : Bool) (stateFile : String)
    (input : Except String Json) (outcomes : List (Option GhResult)) : ActionResult :=
  let lr := tryLoadPublishState input
  let toPublish := selectToPublish payloads limit resume lr.state
  let msgs := resumeMessages resume fileExists lr stateFile
  if dryRun then
    ⟨msgs ++ toPublish.map (dryRunIssueLine repo), [], [], true⟩
  else
    let r := publishLoop toPublish outcomes lr.state
    ⟨msgs, r.calls, r.writes, r.ok⟩

/-! ## Backlog data model, sorting, duplicate detection and loading -/

/-- Lifecycle status enum (source `z.enum(["backlog", "scaffolded", "mvp",
"hardened", "shipped"])`). -/
inductive Status where
  | backlog | scaffolded | mvp | hardened | shipped
deriving DecidableEq

/-- A validated backlog item (source `BacklogItemSchema` output, with the
zod defaults already applied). -/
structure BacklogItem where
  id : String
  title : String
  pitch : String
  owner : Option String := none
  labels : List String := []
  status : Status := .backlog
  tasks : List String := []
  acceptance : List String := []
  risks : List String := []
deriving DecidableEq

/-- A validated backlog (source `BacklogSchema` output). -/
structure Backlog where
  project : String
  generated_by : Option String := none
  items : List BacklogItem
deriving DecidableEq

/-- Sort mode of the `--sort` option. -/
inductive SortMode where
  | input | id
deriving DecidableEq

/-- Stable insertion of `x` into `l`: `x` goes in front of the first element
it compares less-or-equal to, hence in front of elements equal to it that
were originally later.  Together with `stableSortBy` this is the model of
the (specified-stable) JavaScript `Array.prototype.sort`. -/
def stableInsertBy {α : Type} (le : α → α → Bool) (x : α) : List α → List α
  | [] => [x]
  | y :: ys => if le x y then x :: y :: ys else y :: stableInsertBy le x ys

/-- Stable sort by a total boolean comparison (insertion sort; any stable
sort algorithm yields the same list for a total preorder, so this faithfully
models the JavaScript engine's sort). -/
def stableSortBy {α : Type} (le : α → α → Bool) : List α → List α
  | [] => []
  | x :: xs => stableInsertBy le x (stableSortBy le xs)

/-- Source `sortBacklog`: input mode returns the backlog unchanged; id mode
returns a copy whose items are stably sorted by
`(a, b) => a.id.localeCompare(b.id)` (ICU collation; `localeLe` stands in
only to keep the definition executable). -/
def sortBacklog (b : Backlog) (mode : SortMode) : Backlog :=
  match mode with
  | .input => b
  | .id => { b with items := stableSortBy (fun x y => localeLe x.id y.id) b.items }

/-- Source `assertUniqueItemIds` first pass: walk the ids front to back with
a `seen` set and a `duplicates` set, both in insertion order. -/
def collectDuplicatesAux : List String → List String → List String → List String
  | _, dups, [] => dups
  | seen, dups, id :: rest =>
    let dups' := if seen.contains id && ! dups.contains id then dups ++ [id] else dups
    let seen' := if seen.contains id then seen else seen ++ [id]
    collectDuplicatesAux seen' dups' rest

/-- The set of identifiers that occur more than once, in order of first
re-occurrence (the JavaScript `duplicates` set spread to an array). -/
def collectDuplicates (ids : List String) : List String :=
  collectDuplicatesAux [] [] ids

/-- Source `assertUniqueItemIds`: throw a single error naming every
duplicate identifier, sorted with `localeCompare` (ICU collation;
`localeLe` stands in only to keep the definition executable) and joined
with `", "`. -/
def assertUniqueItemIds (b : Backlog) : Except String Unit :=
  let dups := collectDuplicates (b.items.map (fun it => it.id))
  if dups.isEmpty then .ok ()
  else .error ("Duplicate backlog item id(s): " ++ joinCommaSpace (stableSortBy localeLe dups))

/-- Raw (pre-validation) backlog item as read from YAML; `none` models an
absent field.  Type mismatches coarser than this shape are subsumed into the
structural-validation failure and not modelled field by field. -/
structure RawItem where
  id : Option String := none
  title : Option String := none
  pitch : Option String := none
  owner : Option String := none
  labels : Option (List String) := none
  status : Option String := none
  tasks : Option (List String) := none
  acceptance : Option (List String) := none
  risks : Option (List String) := none
deriving DecidableEq

/-- Raw (pre-validation) backlog document. -/
structure RawBacklog where
  project : Option String := none
  generated_by : Option String := none
  items : Option (List RawItem) := none
deriving DecidableEq

/-- Identifier tail characters of the source regex
`^[A-Za-z0-9][A-Za-z0-9._-]*$`. -/
def isIdChar (c : Char) : Bool :=
  c.isAlphanum || c = '.' || c = '_' || c = '-'

/-- The filename-safe identifier pattern of `BacklogItemSchema`. -/
def isValidId (s : String) : Bool :=
  match s.data with
  | [] => false
  | c :: rest => c.isAlphanum && rest.all isIdChar

/-- Zod `z.string().min(1)` on a required field. -/
def requireNonempty (field : String) (v : Option String) : Except String String :=
  match v with
  | some s => if s = "" then .error ("invalid " ++ field) else .ok s
  | none => .error ("missing " ++ field)

/-- Zod `z.array(z.string().min(1)).default([])`. -/
def nonemptyStringList (field : String) (v : Option (List String)) :
    Except String (List String) :=
  match v with
  | none => .ok []
  | some xs =>
    if xs.all (fun s => ! (s = "")) then .ok xs
    else .error ("empty string in " ++ field)

/-- The status enum with its `backlog` default. -/
def parseStatus : Option String → Except String Status
  | none => .ok .backlog
  | some "backlog" => .ok .backlog
  | some "scaffolded" => .ok .scaffolded
  | some "mvp" => .ok .mvp
  | some "hardened" => .ok .hardened
  | some "shipped" => .ok .shipped
  | some _ => .error "invalid status"

/-- Structural validation of one item (`BacklogItemSchema.parse`). -/
def validateItem (it : RawItem) : Except String BacklogItem := do
  let id ← requireNonempty "id" it.id
  if isValidId id then do
    let title ← requireNonempty "title" it.title
    let pitch ← requireNonempty "pitch" it.pitch
    let labels ← nonemptyStringList "labels" it.labels
    let status ← parseStatus it.status
    let tasks ← nonemptyStringList "tasks" it.tasks
    let acceptance ← nonemptyStringList "acceptance" it.acceptance
    let risks ← nonemptyStringList "risks" it.risks
    pure { id := id, title := title, pitch := pitch, owner := it.owner,
           labels := labels, status := status, tasks := tasks,
           acceptance := acceptance, risks := risks }
  else .error "id must be filename-safe (letters/numbers/._-)"

/-- Structural validation of the whole document (`BacklogSchema.parse`):
required project name and a non-empty item list. -/
def validateBacklog (raw : RawBacklog) : Except String Backlog := do
  let project ← requireNonempty "project" raw.project
  match raw.items with
  | none => .error "missing items"
  | some [] => .error "items must be non-empty"
  | some rawItems => do
    let items ← rawItems.mapM validateItem
    pure { project := project, generated_by := raw.generated_by, items := items }

/-- Source `loadBacklog` after the YAML read: `BacklogSchema.parse` followed
by `assertUniqueItemIds`. -/
def loadBacklog (raw : RawBacklog) : Except String Backlog := do
  let backlog ← validateBacklog raw
  match assertUniqueItemIds backlog with
  | .ok _ => pure backlog
  | .error e => .error e

/-! ## Template substitution and plan building -/

/-- Opening curly brace (written via its code point to keep string scanning
trivial). -/
def lbrace : Char := Char.ofNat 123

/-- Closing curly brace. -/
def rbrace : Char := Char.ofNat 125

/-- Regex `\w` (template placeholder names). -/
def isWordChar (c : Char) : Bool := c.isAlphanum || c = '_'

/-- Source `applyTemplate`: replace every non-overlapping match of
double-brace-delimited `\w+` placeholders by the bound value, or by the
empty string when the name is unbound (`data[key] ?? ""`).  The fuel is the
input length, which suffices because every step consumes at least one
character. -/
def applyTemplateChars (data : String → Option String) : Nat → List Char → List Char
  | 0, _ => []
  | _ + 1, [] => []
  | fuel + 1, c1 :: rest =>
    if c1 = lbrace then
      match rest with
      | c2 :: rest2 =>
        if c2 = lbrace then
          let w := rest2.takeWhile isWordChar
          let after := rest2.dropWhile isWordChar
          match w, after with
          | _ :: _, a1 :: a2 :: rest3 =>
            if a1 = rbrace && a2 = rbrace then
              (match data (String.mk w) with
               | some v => v.data
               | none => []) ++ applyTemplateChars data fuel rest3
            else c1 :: applyTemplateChars data fuel rest
          | _, _ => c1 :: applyTemplateChars data fuel rest
        else c1 :: applyTemplateChars data fuel rest
      | [] => [c1]
    else c1 :: applyTemplateChars data fuel rest

/-- String-level wrapper of `applyTemplateChars`. -/
def applyTemplate (template : String) (data : String → Option String) : String :=
  String.mk (applyTemplateChars data template.data.length template.data)

/-- The two templates (issue and plan) fed to the builders. -/
structure Templates where
  issue : String
  plan : String
deriving DecidableEq

/-- Status names as rendered into text. -/
def statusText : Status → String
  | .backlog => "backlog"
  | .scaffolded => "scaffolded"
  | .mvp => "mvp"
  | .hardened => "hardened"
  | .shipped => "shipped"

/-- Bullet-list rendering `lines.map((line) => `- ${line}`).join("\n")`. -/
def bulletList (lines : List String) : String :=
  joinNewline (lines.map (fun t => "- " ++ t))

/-- The tasks block: declared tasks as bullets, or the fixed default line. -/
def tasksText (tasks : List String) : String :=
  if tasks.isEmpty then "- Define tasks" else bulletList tasks

/-- Source `buildAcceptance`: declared entries, or the fixed default set. -/
def buildAcceptance (acceptance : List String) : String :=
  bulletList (if acceptance.isEmpty then
    ["Plan exists in /plans", "Docs updated (PLAN/PROJECT/CHANGELOG)", "check passes"]
  else acceptance)

/-- Source `buildRisks`: declared entries, or the fixed default set. -/
def buildRisks (risks : List String) : String :=
  bulletList (if risks.isEmpty then
    ["Scope creep", "Missing tests", "Unsafe defaults"]
  else risks)

/-- One numbered plan section (the body of the `map` in `buildPlan`). -/
def planSection (index : Nat) (item : BacklogItem) : String :=
  joinNewline [
    "## " ++ toString (index + 1) ++ ". " ++ item.title,
    "ID: " ++ item.id,
    item.pitch,
    "Status: " ++ statusText item.status,
    "Tasks:",
    tasksText item.tasks,
    "",
    "Acceptance:",
    buildAcceptance item.acceptance,
    "",
    "Risks:",
    buildRisks item.risks]

/-- JavaScript `Array.prototype.join("\n\n")`. -/
def joinDoubleNewline : List String → String
  | [] => ""
  | [s] => s
  | s :: rest => s ++ "\n\n" ++ joinDoubleNewline rest

/-- The placeholder binding used by `buildPlan`
(`{ project, generated_at, items }`). -/
def planData (project generatedAt items : String) : String → Option String :=
  fun k =>
    if k = "project" then some project
    else if k = "generated_at" then some generatedAt
    else if k = "items" then some items
    else none

/-- Source `buildPlan`: number the items in the given order, render each
section, join with blank lines and substitute into the plan template. -/
def buildPlan (backlog : Backlog) (templates : Templates) (generatedAt : String) : String :=
  let items := joinDoubleNewline
    (List.zipWith planSection (List.range backlog.items.length) backlog.items)
  applyTemplate templates.plan (planData backlog.project generatedAt items)

/-- Leading `YYYY-MM-DDT` shape check of the source regex
`^\d{4}-\d{2}-\d{2}T`. -/
def isoPrefixOk (s : String) : Bool :=
  match s.data with
  | a :: b :: c :: d :: h1 :: e :: f :: h2 :: g :: h :: t :: _ =>
    a.isDigit && b.isDigit && c.isDigit && d.isDigit && h1 = '-' &&
    e.isDigit && f.isDigit && h2 = '-' && g.isDigit && h.isDigit && t = 'T'
  | _ => false

/-- Source `normalizeGeneratedAt`: with no explicit value, read the ambient
clock (`new Date().toISOString()`, passed in as `now`); with an explicit
value, trim it and validate its ISO shape without consulting the clock. -/
def normalizeGeneratedAt (now : String) (value : Option String) : Except String String :=
  match value with
  | none => .ok now
  | some v =>
    let trimmed := String.mk (jsTrim v.data)
    if trimmed = "" then .error ("Invalid generated-at value: " ++ v)
    else if isoPrefixOk trimmed then .ok trimmed
    else .error ("generated-at must be an ISO 8601 timestamp, got: " ++ v)

/-- The plan text produced by one `simulate` run, as a function of the run's
ambient clock reading `now` and the `--generated-at` option. -/
def simulatePlan (now : String) (backlog : Backlog) (templates : Templates)
    (generatedAt : Option String) : Except String String :=
  match normalizeGeneratedAt now generatedAt with
  | .error e => .error e
  | .ok g => .ok (buildPlan backlog templates g)

/-! ## Owner-derived assignee parsing -/

/-- Line terminators as treated by the source regex's `m` flag and dot
(`\n` and `\r`; the rare Unicode separators are not modelled). -/
def lineTerminator (c : Char) : Bool := c = '\n' || c = '\r'

/-- Advance to the next multiline match start: just past the next line
terminator (or to the end when none remains). -/
def dropThroughLineTerminator : List Char → List Char
  | [] => []
  | c :: rest => if lineTerminator c then rest else dropThroughLineTerminator rest

/-- The literal scanned for at each line start. -/
def ownerLabelChars : List Char := "Owner:".data

/-- Matching `\s*(.+)\s*$` directly after the `Owner:` literal, with the
regex's backtracking semantics: greedy whitespace skip (which may cross line
terminators), then at least one non-terminator character captured greedily to
the end of its line.  When only whitespace remains to the end of the input,
the engine backtracks so that the capture becomes the last non-terminator
whitespace character (which trims to nothing); when only line terminators
remain, the match fails. -/
def matchOwnerTail (cs : List Char) : Option (List Char) :=
  match cs.dropWhile isJsWhitespace with
  | c :: rest => some ((c :: rest).takeWhile (fun x => ! lineTerminator x))
  | [] =>
    match (cs.takeWhile isJsWhitespace).reverse.dropWhile lineTerminator with
    | [] => none
    | c :: _ => some [c]

/-- The first-match scan of `/^Owner:\s*(.+)\s*$/m` over the body: at each
line start, try the `Owner:` literal and its tail; on failure move to the
next line start.  The fuel is the input length, which suffices because each
failed attempt consumes at least one character. -/
def scanOwnerCapture : Nat → List Char → Option (List Char)
  | 0, _ => none
  | _ + 1, [] => none
  | fuel + 1, cs =>
    if ownerLabelChars.isPrefixOf cs then
      match matchOwnerTail (cs.drop 6) with
      | some cap => some cap
      | none => scanOwnerCapture fuel (dropThroughLineTerminator cs)
    else scanOwnerCapture fuel (dropThroughLineTerminator cs)

/-- JavaScript `String.prototype.split(",")` on a character list. -/
def splitOnComma (cs : List Char) : List (List Char) :=
  match cs with
  | [] => [[]]
  | c :: rest =>
    if c = ',' then [] :: splitOnComma rest
    else
      match splitOnComma rest with
      | [] => [[c]]
      | f :: fs => (c :: f) :: fs

/-- JavaScript `String.prototype.toLowerCase` (ASCII suffices here). -/
def toLowerChars (cs : List Char) : List Char := cs.map Char.toLower

/-- `value.startsWith("@") ? value.slice(1) : value`. -/
def stripLeadingAt : List Char → List Char
  | '@' :: rest => rest
  | cs => cs

/-- Source `parseAssigneesFromIssueBody`: first match of
`/^Owner:\s*(.+)\s*$/m`, trimmed; an empty or (case-insensitively)
`unassigned` whole value yields no assignees; otherwise split on commas,
trim each part, drop empty parts and strip one leading `@`. -/
def parseAssigneesFromIssueBody (body : String) : List String :=
  match scanOwnerCapture body.data.length body.data with
  | none => []
  | some cap =>
    let raw := jsTrim cap
    if raw.isEmpty || toLowerChars raw = "unassigned".data then []
    else
      (((splitOnComma raw).map jsTrim).filter (fun p => ! p.isEmpty)).map
        (fun p => String.mk (stripLeadingAt p))

/-- Modelled from the spec's words for claim C8 (not from the source): scan
for the first line matching `Owner: <value>`, split the value on commas,
trim each part, drop empty parts and `unassigned` sentinel parts, and strip
one leading `@` from each remaining part. -/
def parseAssigneesSpecC8 (body : String) : List String :=
  let lines := (body.data.splitOn '\n')
  match lines.find? (fun l => ownerLabelChars.isPrefixOf l) with
  | none => []
  | some l =>
    let value := jsTrim (l.drop 6)
    (((splitOnComma value).map jsTrim).filter
        (fun p => ! p.isEmpty && ! (p = "unassigned".data))).map
      (fun p => String.mk (stripLeadingAt p))

/-! ## CSV summary: writer, parser, reader -/

/-- An issue draft (source type `IssueDraft`). -/
structure IssueDraft where
  id : String
  title : String
  body : String
  labels : List String
deriving DecidableEq

/-- A summary row as reconstituted by the reader (source type
`SummaryRow`). -/
structure SummaryRow where
  id : String
  title : String
  labels : List String
deriving DecidableEq

/-- Doubling of embedded double quotes (`value.replace(/"/g, "\"\"")`). -/
def doubleQuotes : List Char → List Char
  | [] => []
  | c :: cs => if c = '"' then '"' :: '"' :: doubleQuotes cs else c :: doubleQuotes cs

/-- Source `escapeCsv`: wrap in double quotes, doubling inner quotes, iff the
field contains a comma, a double quote or a line feed. -/
def escapeCsvChars (v : List Char) : List Char :=
  if v.contains ',' || v.contains '"' || v.contains '\n' then
    '"' :: doubleQuotes v ++ ['"']
  else v

/-- JavaScript `Array.prototype.join(";")` flattened to characters
(`issue.labels.join(";")`). -/
def joinSemicolon : List String → List Char
  | [] => []
  | [s] => s.data
  | s :: rest => s.data ++ ';' :: joinSemicolon rest

/-- One data row of the CSV summary (source: `[issue.id,
escapeCsv(issue.title), escapeCsv(issue.labels.join(";"))].join(",")`; note
the id is written unescaped). -/
def summaryCsvRow (issue : IssueDraft) : List Char :=
  issue.id.data ++ ',' :: escapeCsvChars issue.title.data ++
    ',' :: escapeCsvChars (joinSemicolon issue.labels)

/-- The fixed header row `id,title,labels`. -/
def csvHeader : List Char := "id,title,labels".data

/-- Line joining of the final CSV text
(`[csvHeader, ...csvRows].join("\n")`). -/
def joinRowsNewline : List (List Char) → List Char
  | [] => []
  | [r] => r
  | r :: rest => r ++ '\n' :: joinRowsNewline rest

/-- The CSV text written by `writeSummary` (the part of the function that
produces `summary.csv`; the filesystem write itself is external). -/
def writeSummaryCsv (issues : List IssueDraft) : String :=
  String.mk (joinRowsNewline (csvHeader :: issues.map summaryCsvRow))

/-- Source `parseCsv`'s character loop: `inQ` is the in-quotes flag, `cell`
the current cell, `cur` the current row, `rows` the finished rows.  Doubled
quotes inside a quoted cell are unescaped; unquoted commas split cells;
unquoted line feeds, carriage returns and CRLF pairs split rows; at the end
of input the pending cell and row are pushed. -/
def parseCsvAux : List Char → Bool → List Char → List String → List (List String) →
    List (List String)
  | [], _, cell, cur, rows => rows ++ [cur ++ [String.mk cell]]
  | '"' :: '"' :: rest, true, cell, cur, rows => parseCsvAux rest true (cell ++ ['"']) cur rows
  | '"' :: rest, true, cell, cur, rows => parseCsvAux rest false cell cur rows
  | '"' :: rest, false, cell, cur, rows => parseCsvAux rest true cell cur rows
  | ',' :: rest, true, cell, cur, rows => parseCsvAux rest true (cell ++ [',']) cur rows
  | ',' :: rest, false, cell, cur, rows => parseCsvAux rest false [] (cur ++ [String.mk cell]) rows
  | '\n' :: rest, true, cell, cur, rows => parseCsvAux rest true (cell ++ ['\n']) cur rows
  | '\n' :: rest, false, cell, cur, rows =>
    parseCsvAux rest false [] [] (rows ++ [cur ++ [String.mk cell]])
  | '\r' :: '\n' :: rest, false, cell, cur, rows =>
    parseCsvAux rest false [] [] (rows ++ [cur ++ [String.mk cell]])
  | '\r' :: rest, true, cell, cur, rows => parseCsvAux rest true (cell ++ ['\r']) cur rows
  | '\r' :: rest, false, cell, cur, rows =>
    parseCsvAux rest false [] [] (rows ++ [cur ++ [String.mk cell]])
  | c :: rest, inQ, cell, cur, rows => parseCsvAux rest inQ (cell ++ [c]) cur rows

/-- Source `parseCsv`. -/
def parseCsv (input : List Char) : List (List String) :=
  parseCsvAux input false [] [] []

/-- JavaScript `String.prototype.split(";")` on a character list. -/
def splitOnSemi (cs : List Char) : List (List Char) :=
  match cs with
  | [] => [[]]
  | c :: rest =>
    if c = ';' then [] :: splitOnSemi rest
    else
      match splitOnSemi rest with
      | [] => [[c]]
      | f :: fs => (c :: f) :: fs

/-- The row projection of `loadSummaryCsv`
(`lines.map(([id, title, labels]) => ({ id, title, labels: labels ?
labels.split(";").filter(Boolean) : [] }))`). -/
def summaryRowOfCells (cells : List String) : SummaryRow :=
  let lbl := cells.getD 2 ""
  { id := cells.getD 0 "",
    title := cells.getD 1 "",
    labels :=
      if lbl = "" then []
      else ((splitOnSemi lbl.data).map String.mk).filter (fun s => ! (s = "")) }

/-- Source `loadSummaryCsv`: trim the raw text; an empty file yields no
rows; otherwise parse, demand the exact `id,title,labels` header and project
each remaining row. -/
def loadSummaryCsv (raw : String) : Except String (List SummaryRow) :=
  if (jsTrim raw.data).isEmpty then .ok []
  else
    match parseCsv (jsTrim raw.data) with
    | [] => .error "summary CSV must have header: id,title,labels"
    | header :: rows =>
      if joinComma header = "id,title,labels" then .ok (rows.map summaryRowOfCells)
      else .error "summary CSV must have header: id,title,labels"

/-- Decidable equality for `Except` results, used to evaluate the model on
concrete inputs. -/
instance {e a : Type} [DecidableEq e] [DecidableEq a] : DecidableEq (Except e a) := fun x y =>
  match x, y with
  | .ok u, .ok v =>
    if h : u = v then .isTrue (by rw [h]) else .isFalse (by intro hc; cases hc; exact h rfl)
  | .error u, .error v =>
    if h : u = v then .isTrue (by rw [h]) else .isFalse (by intro hc; cases hc; exact h rfl)
  | .ok _, .error _ => .isFalse (by intro hc; cases hc)
  | .error _, .ok _ => .isFalse (by intro hc; cases hc)

/-- The per-success ledger additions of an execute run: the payloads that
succeeded, paired positionally with the external results they produced. -/
def successRecords (ps : List PublishPayload) (gs : List GhResult) :
    List (String × CreatedRecord) :=
  (ps.zip gs).map (fun pg => (pg.fst.id, mkCreatedRecord pg.fst pg.snd))

/-- Safety conditions on a draft under which the CSV summary round-trips:
the id contains no CSV metacharacters (it is written unescaped), the title
contains no bare carriage return (the only line break the quoting scheme
does not protect), and every label is non-empty, free of the `;` flattening
separator and of carriage returns, and does not end in whitespace (the
reader trims the raw file, which can clip the final cell). -/
def csvSafeDraft (d : IssueDraft) : Bool :=
  d.id.data.all (fun c => ! (c = '"' || c = ',' || c = '\n' || c = '\r')) &&
  ! d.title.data.contains '\r' &&
  d.labels.all (fun l =>
    ! l.data.isEmpty && ! l.data.contains ';' && ! l.data.contains '\r' &&
    (match l.data.getLast? with
     | some c => ! isJsWhitespace c
     | none => true))

/-- The cells of one parsed summary data row. -/
def summaryRowCells (d : IssueDraft) : List String :=
  [d.id, d.title, String.mk (joinSemicolon d.labels)]

/-! # Theorems -/

/-! ## C1: ordering of limit and resume filtering -/

/-- Claim C1 is false on the code: with payloads `gp-001, gp-002`, a ledger
already containing `gp-001` and `--limit 1`, the code truncates first and
then filters, attempting nothing, while the claimed order (filter first,
then truncate) would attempt `gp-002`. -/
theorem limit_order_counterexample :
    selectToPublish [⟨"gp-001", "A", "", [], []⟩, ⟨"gp-002", "B", "", [], []⟩] (some 1) true
      ⟨1, [("gp-001", ⟨"A", [], none, none⟩)]⟩ = [] ∧
    selectToPublishSpecOrder [⟨"gp-001", "A", "", [], []⟩, ⟨"gp-002", "B", "", [], []⟩] (some 1)
      true ⟨1, [("gp-001", ⟨"A", [], none, none⟩)]⟩ =
      [⟨"gp-002", "B", "", [], []⟩] := by
  exact ⟨by decide, by decide⟩

/-- Claim C1 (amended): the positive limit `N` is applied to the resolved
batch BEFORE resume filtering, so the records attempted (or previewed) are
exactly the ledger-absent records among the first `N` payloads, in order. -/
theorem applyLimit_runs_before_resume_filter (payloads : List PublishPayload)
    (st : PublishState) (n : Int) (h : 0 < n) :
    selectToPublish payloads (some n) true st =
      (payloads.take n.toNat).filter (fun p => ! createdHasId st p.id) := by
  simp only [selectToPublish, applyLimit, if_neg (by omega : ¬ n ≤ 0)]
  simp

/-- Witness for the amended C1 theorem at a concrete input. -/
theorem applyLimit_runs_before_resume_filter_witness :
    selectToPublish [⟨"gp-001", "A", "", [], []⟩, ⟨"gp-002", "B", "", [], []⟩] (some 1) true
      ⟨1, [("gp-001", ⟨"A", [], none, none⟩)]⟩ =
      (([⟨"gp-001", "A", "", [], []⟩, ⟨"gp-002", "B", "", [], []⟩] :
          List PublishPayload).take (1 : Int).toNat).filter
        (fun p => ! createdHasId ⟨1, [("gp-001", ⟨"A", [], none, none⟩)]⟩ p.id) :=
  applyLimit_runs_before_resume_filter _ _ 1 (by decide)

/-! ## C4: resume filtering semantics and the load-failure path -/

/-- Helper: when the loader reports failure, the state it returns is the
empty version-1 ledger. -/
theorem loaded_false_state (input : Except String Json)
    (h : (tryLoadPublishState input).loaded = false) :
    (tryLoadPublishState input).state = ⟨1, []⟩ := by
  cases input with
  | error e => rfl
  | ok j =>
    cases hp : publishStateSchemaParse j with
    | ok st => simp [tryLoadPublishState, hp] at h
    | error e => simp [tryLoadPublishState, hp]

/-- Helper: every record selected for publishing under resume is absent from
the consulted ledger. -/
theorem mem_selectToPublish_not_created (payloads : List PublishPayload)
    (limit : Option Int) (st : PublishState) (x : PublishPayload)
    (hx : x ∈ selectToPublish payloads limit true st) :
    createdHasId st x.id = false := by
  unfold selectToPublish at hx
  simp only [if_true, Bool.true_eq] at hx
  have hx' : x ∈ (applyLimit payloads limit).filter (fun p => ! createdHasId st p.id) := by
    simpa using hx
  have := (List.mem_filter.mp hx').2
  simpa using this

/-- Claim C4 is false on the code: with the state file ABSENT (here: the
read throws `ENOENT` and `existsSync` is false), the dry run proceeds with
the full batch but prints no warning at all — the output is exactly the one
preview line, with no `Warning:` line, although the claim requires a
non-fatal warning to be surfaced. -/
theorem missing_state_file_warns_nothing :
    runPublishAction "o/r" [⟨"gp-001", "A", "", [], []⟩] none true true false
      "publish-state.json" (.error "ENOENT: no such file or directory") [] =
    ⟨["[dry-run] gh issue create --repo o/r --title A --label "], [], [], true⟩ := by
  decide

/-- Claim C4 (amended): ledger-present identifiers are excluded from the
batch outright (whatever their current title or labels); when the state file
fails to load, the run proceeds with the full limited batch, surfacing the
could-not-parse warning when the file exists and nothing at all when it is
absent. -/
theorem resume_filter_excludes_and_warns (payloads : List PublishPayload)
    (limit : Option Int) (st : PublishState) (input : Except String Json)
    (stateFile : String) (h : (tryLoadPublishState input).loaded = false) :
    (∀ x ∈ selectToPublish payloads limit true st, createdHasId st x.id = false) ∧
    selectToPublish payloads limit true (tryLoadPublishState input).state =
      applyLimit payloads limit ∧
    resumeMessages true true (tryLoadPublishState input) stateFile =
      ["Warning: could not parse " ++ stateFile ++ "; proceeding without resume" ++
        jsTemplateError (tryLoadPublishState input).error] ∧
    resumeMessages true false (tryLoadPublishState input) stateFile = [] := by
  refine ⟨fun x hx => mem_selectToPublish_not_created payloads limit st x hx, ?_, ?_, ?_⟩
  · rw [loaded_false_state input h]
    unfold selectToPublish
    simp [createdHasId, List.filter_eq_self]
  · simp [resumeMessages, h]
  · simp [resumeMessages]

/-- Witness for the amended C4 theorem at a concrete input. -/
theorem resume_filter_excludes_and_warns_witness :
    (∀ x ∈ selectToPublish [⟨"gp-001", "A", "", [], []⟩] none true
        ⟨1, [("gp-001", ⟨"A", [], none, none⟩)]⟩,
      createdHasId ⟨1, [("gp-001", ⟨"A", [], none, none⟩)]⟩ x.id = false) ∧
    selectToPublish [⟨"gp-001", "A", "", [], []⟩] none true
        (tryLoadPublishState (.error "ENOENT: no such file or directory")).state =
      applyLimit [⟨"gp-001", "A", "", [], []⟩] none ∧
    resumeMessages true true (tryLoadPublishState (.error "ENOENT: no such file or directory"))
        "publish-state.json" =
      ["Warning: could not parse publish-state.json; proceeding without resume" ++
        jsTemplateError
          (tryLoadPublishState (.error "ENOENT: no such file or directory")).error] ∧
    resumeMessages true false (tryLoadPublishState (.error "ENOENT: no such file or directory"))
        "publish-state.json" = [] :=
  resume_filter_excludes_and_warns _ none _ _ "publish-state.json" (by rfl)

/-! ## C9: dry-run is side-effect-free -/

/-- Claim C9: in dry-run mode the publish action invokes the external
capability on nothing, performs no state-file write (the on-disk ledger is
whatever it was), prints exactly the resume line(s) followed by one
equivalent `gh` command line per candidate, and its behaviour is
independent of the external capability's outcomes. -/
theorem publish_dry_run_frame (repo : String) (payloads : List PublishPayload)
    (limit : Option Int) (resume fileExists : Bool) (stateFile : String)
    (input : Except String Json) (d0 : Option PublishState)
    (outcomes outcomes2 : List (Option GhResult)) :
    (runPublishAction repo payloads limit resume true fileExists stateFile input
        outcomes).calls = [] ∧
    (runPublishAction repo payloads limit resume true fileExists stateFile input
        outcomes).writes = [] ∧
    finalDisk d0 (runPublishAction repo payloads limit resume true fileExists stateFile input
        outcomes).writes = d0 ∧
    (runPublishAction repo payloads limit resume true fileExists stateFile input
        outcomes).output =
      resumeMessages resume fileExists (tryLoadPublishState input) stateFile ++
        (selectToPublish payloads limit resume (tryLoadPublishState input).state).map
          (dryRunIssueLine repo) ∧
    runPublishAction repo payloads limit resume true fileExists stateFile input outcomes =
      runPublishAction repo payloads limit resume true fileExists stateFile input outcomes2 := by
  refine ⟨rfl, rfl, ?_, rfl, rfl⟩
  rfl

/-! ## C10: the state loaders are total and degrade to the empty ledger -/

/-- Claim C10: whenever the read-parse-validate pipeline of either resume
ledger fails (missing or unreadable file, invalid JSON, schema violation —
all surfacing as a failed read result or a failed schema parse), the loader
returns the empty version-1 state, reports `loaded = false` and captures an
error message; it never throws (it is a total function by construction). -/
theorem state_loaders_degrade_on_failure (inp1 inp2 : Except String Json)
    (h1 : publishLoadSucceeds inp1 = false) (h2 : draftLoadSucceeds inp2 = false) :
    (tryLoadPublishState inp1).state = ⟨1, []⟩ ∧
    (tryLoadPublishState inp1).loaded = false ∧
    (tryLoadPublishState inp1).error.isSome = true ∧
    (tryLoadProjectDraftState inp2).state = ⟨1, []⟩ ∧
    (tryLoadProjectDraftState inp2).loaded = false ∧
    (tryLoadProjectDraftState inp2).error.isSome = true := by
  obtain ⟨e1, he1⟩ : ∃ e, tryLoadPublishState inp1 = ⟨⟨1, []⟩, false, some e⟩ := by
    cases inp1 with
    | error e => exact ⟨e, rfl⟩
    | ok j =>
      cases hp : publishStateSchemaParse j with
      | ok st => simp [publishLoadSucceeds, hp] at h1
      | error e => exact ⟨e, by simp [tryLoadPublishState, hp]⟩
  obtain ⟨e2, he2⟩ : ∃ e, tryLoadProjectDraftState inp2 = ⟨⟨1, []⟩, false, some e⟩ := by
    cases inp2 with
    | error e => exact ⟨e, rfl⟩
    | ok j =>
      cases hp : projectDraftStateSchemaParse j with
      | ok st => simp [draftLoadSucceeds, hp] at h2
      | error e => exact ⟨e, by simp [tryLoadProjectDraftState, hp]⟩
  rw [he1, he2]
  exact ⟨rfl, rfl, rfl, rfl, rfl, rfl⟩

/-- Witness for the C10 theorem: an unreadable publish ledger and a
schema-violating (empty-object) draft ledger. -/
theorem state_loaders_degrade_on_failure_witness :
    (tryLoadPublishState (.error "ENOENT: no such file or directory")).state = ⟨1, []⟩ ∧
    (tryLoadPublishState (.error "ENOENT: no such file or directory")).loaded = false ∧
    (tryLoadPublishState (.error "ENOENT: no such file or directory")).error.isSome = true ∧
    (tryLoadProjectDraftState (.ok (Json.obj []))).state = ⟨1, []⟩ ∧
    (tryLoadProjectDraftState (.ok (Json.obj []))).loaded = false ∧
    (tryLoadProjectDraftState (.ok (Json.obj []))).error.isSome = true :=
  state_loaders_degrade_on_failure (.error "ENOENT: no such file or directory")
    (.ok (Json.obj [])) (by rfl) (by rfl)

/-! ## C6: plan building is clock-independent given an explicit timestamp -/

/-- Claim C6: with a fixed backlog, fixed templates and a fixed explicitly
supplied generation timestamp, two `simulate` runs — even under different
ambient clock readings — produce identical plan text: the clock is consulted
only when no explicit timestamp is given, and the whole pipeline is a pure
function of its inputs (no locale- or iteration-order-dependent step). -/
theorem buildPlan_deterministic (b : Backlog) (t : Templates) (v : String)
    (now1 now2 : String) :
    simulatePlan now1 b t (some v) = simulatePlan now2 b t (some v) := rfl

/-! ## C2: incremental ledger flushing in execute mode -/

/-- Helper: the on-disk ledger after one more write is determined by the
remaining writes with the new write as the fallback. -/
theorem finalDisk_cons (d0 : Option PublishState) (w : PublishState)
    (ws : List PublishState) : finalDisk d0 (w :: ws) = finalDisk (some w) ws := by
  cases ws with
  | nil => rfl
  | cons x xs =>
    unfold finalDisk
    rw [List.getLast?_cons_cons]
    cases h : (x :: xs).getLast? with
    | some y => rfl
    | none => simp at h

/-- Helper: `applyLimit` yields a sublist of the batch. -/
theorem applyLimit_sublist {α : Type} (items : List α) (limit : Option Int) :
    (applyLimit items limit).Sublist items := by
  cases limit with
  | none => exact List.Sublist.refl items
  | some n =>
    by_cases h : n ≤ 0
    · simp [applyLimit, h]
    · simp only [applyLimit, if_neg h]
      exact List.take_sublist n.toNat items

/-- Helper: the selected batch is a sublist of the payload batch. -/
theorem selectToPublish_sublist (payloads : List PublishPayload) (limit : Option Int)
    (resume : Bool) (st : PublishState) :
    (selectToPublish payloads limit resume st).Sublist payloads := by
  unfold selectToPublish
  cases resume with
  | false => simpa using applyLimit_sublist payloads limit
  | true =>
    simp only [if_true, Bool.true_eq]
    exact ((List.filter_sublist _).trans (applyLimit_sublist payloads limit))

/-- Helper: the execute loop on a schedule of `N` successes followed by a
failure aborts, calls the capability on exactly the first `N + 1`
candidates, and leaves on disk the starting ledger extended by exactly the
`N` success records — provided the candidates are fresh (not in the starting
ledger) and have pairwise distinct identifiers. -/
theorem publishLoop_partial (succs : List GhResult) (ps : List PublishPayload)
    (rest : List (Option GhResult)) (st : PublishState)
    (hlen : succs.length < ps.length)
    (hfresh : ∀ p ∈ ps, createdHasId st p.id = false)
    (hnd : (ps.map (fun p => p.id)).Nodup) :
    (publishLoop ps (succs.map some ++ none :: rest) st).ok = false ∧
    finalDisk (some st) (publishLoop ps (succs.map some ++ none :: rest) st).writes =
      some ⟨st.version, st.created ++ successRecords ps succs⟩ ∧
    (publishLoop ps (succs.map some ++ none :: rest) st).calls =
      ps.take (succs.length + 1) := by
  induction succs generalizing ps st with
  | nil =>
    cases ps with
    | nil => simp at hlen
    | cons p ps' =>
      refine ⟨rfl, ?_, rfl⟩
      simp [publishLoop, finalDisk, successRecords]
  | cons g gs ih =>
    cases ps with
    | nil => simp at hlen
    | cons p ps' =>
      have hfreshp : createdHasId st p.id = false := hfresh p (by simp)
      have hset : recordSet st.created p.id (mkCreatedRecord p g) =
          st.created ++ [(p.id, mkCreatedRecord p g)] := by
        unfold recordSet
        rw [if_neg]
        intro hc
        rw [createdHasId] at hfreshp
        rw [hc] at hfreshp
        exact Bool.true_eq_false.mp hfreshp
      have hpid : p.id ∉ ps'.map (fun q => q.id) := by
        have := hnd
        simp only [List.map_cons, List.nodup_cons] at this
        exact this.1
      have hfresh' : ∀ q ∈ ps',
          createdHasId ⟨st.version, recordSet st.created p.id (mkCreatedRecord p g)⟩ q.id
            = false := by
        intro q hq
        rw [hset]
        have h1 : createdHasId st q.id = false := hfresh q (by simp [hq])
        have h2 : q.id ≠ p.id := by
          intro he
          exact hpid (by rw [← he]; exact List.mem_map_of_mem _ hq)
        simp only [createdHasId, List.any_append, Bool.or_eq_false_iff]
        refine ⟨h1, ?_⟩
        simp [h2.symm]
      have hnd' : (ps'.map (fun q => q.id)).Nodup := by
        simp only [List.map_cons, List.nodup_cons] at hnd
        exact hnd.2
      have hlen' : gs.length < ps'.length := by
        simp only [List.length_cons] at hlen
        omega
      obtain ⟨ih1, ih2, ih3⟩ := ih ps' ⟨st.version, recordSet st.created p.id
        (mkCreatedRecord p g)⟩ hlen' hfresh' hnd'
      have hunfold : publishLoop (p :: ps') ((g :: gs).map some ++ none :: rest) st =
          ⟨(publishLoop ps' (gs.map some ++ none :: rest)
              ⟨st.version, recordSet st.created p.id (mkCreatedRecord p g)⟩).finalState,
            (⟨st.version, recordSet st.created p.id (mkCreatedRecord p g)⟩ : PublishState) ::
              (publishLoop ps' (gs.map some ++ none :: rest)
                ⟨st.version, recordSet st.created p.id (mkCreatedRecord p g)⟩).writes,
            p :: (publishLoop ps' (gs.map some ++ none :: rest)
              ⟨st.version, recordSet st.created p.id (mkCreatedRecord p g)⟩).calls,
            (publishLoop ps' (gs.map some ++ none :: rest)
              ⟨st.version, recordSet st.created p.id (mkCreatedRecord p g)⟩).ok⟩ := rfl
      refine ⟨?_, ?_, ?_⟩
      · rw [hunfold]
        exact ih1
      · rw [hunfold]
        dsimp only
        rw [finalDisk_cons, ih2]
        dsimp only
        rw [hset]
        have hrec : successRecords (p :: ps') (g :: gs) =
            (p.id, mkCreatedRecord p g) :: successRecords ps' gs := rfl
        rw [hrec]
        simp [List.append_assoc]
      · rw [hunfold]
        dsimp only
        rw [ih3]
        simp [List.length_cons, List.take_succ_cons]

/-- Claim C2: in execute mode (resume on), when the external capability
succeeds on the first `N` candidates and then fails, the run aborts having
attempted exactly the first `N + 1` candidates, and the on-disk ledger holds
the loaded ledger extended by exactly the records of the `N` successes (each
success was flushed whole-file before the next attempt); with an empty
loaded ledger this is exactly the `N` success records. -/
theorem execute_flushes_ledger_per_success (repo : String)
    (payloads : List PublishPayload) (limit : Option Int) (fileExists : Bool)
    (stateFile : String) (input : Except String Json) (succs : List GhResult)
    (rest : List (Option GhResult))
    (hnd : (payloads.map (fun p => p.id)).Nodup)
    (hlen : succs.length <
      (selectToPublish payloads limit true (tryLoadPublishState input).state).length) :
    (runPublishAction repo payloads limit true false fileExists stateFile input
        (succs.map some ++ none :: rest)).ok = false ∧
    finalDisk (some (tryLoadPublishState input).state)
        (runPublishAction repo payloads limit true false fileExists stateFile input
          (succs.map some ++ none :: rest)).writes =
      some ⟨(tryLoadPublishState input).state.version,
        (tryLoadPublishState input).state.created ++
          successRecords (selectToPublish payloads limit true (tryLoadPublishState input).state)
            succs⟩ ∧
    (runPublishAction repo payloads limit true false fileExists stateFile input
        (succs.map some ++ none :: rest)).calls =
      (selectToPublish payloads limit true (tryLoadPublishState input).state).take
        (succs.length + 1) := by
  have hfresh : ∀ p ∈ selectToPublish payloads limit true (tryLoadPublishState input).state,
      createdHasId (tryLoadPublishState input).state p.id = false :=
    fun p hp => mem_selectToPublish_not_created payloads limit _ p hp
  have hnd' : ((selectToPublish payloads limit true
      (tryLoadPublishState input).state).map (fun p => p.id)).Nodup :=
    List.Nodup.sublist
      (List.Sublist.map _ (selectToPublish_sublist payloads limit true _)) hnd
  obtain ⟨h1, h2, h3⟩ := publishLoop_partial succs
    (selectToPublish payloads limit true (tryLoadPublishState input).state) rest
    (tryLoadPublishState input).state hlen hfresh hnd'
  exact ⟨h1, h2, h3⟩

/-- Witness for the C2 theorem: two fresh candidates, one success then a
failure; the disk ledger ends up holding exactly the one success record. -/
theorem execute_flushes_ledger_per_success_witness :
    (runPublishAction "o/r" [⟨"a", "t", "", [], []⟩, ⟨"b", "u", "", [], []⟩] none true false
        true "publish-state.json" (.error "ENOENT")
        ([(⟨some "https://github.com/o/r/issues/1", some 1⟩ : GhResult)].map some ++
          none :: [])).ok = false ∧
    finalDisk (some (tryLoadPublishState (.error "ENOENT")).state)
        (runPublishAction "o/r" [⟨"a", "t", "", [], []⟩, ⟨"b", "u", "", [], []⟩] none true false
          true "publish-state.json" (.error "ENOENT")
          ([(⟨some "https://github.com/o/r/issues/1", some 1⟩ : GhResult)].map some ++
            none :: [])).writes =
      some ⟨(tryLoadPublishState (.error "ENOENT")).state.version,
        (tryLoadPublishState (.error "ENOENT")).state.created ++
          successRecords
            (selectToPublish [⟨"a", "t", "", [], []⟩, ⟨"b", "u", "", [], []⟩] none true
              (tryLoadPublishState (.error "ENOENT")).state)
            [⟨some "https://github.com/o/r/issues/1", some 1⟩]⟩ ∧
    (runPublishAction "o/r" [⟨"a", "t", "", [], []⟩, ⟨"b", "u", "", [], []⟩] none true false
        true "publish-state.json" (.error "ENOENT")
        ([(⟨some "https://github.com/o/r/issues/1", some 1⟩ : GhResult)].map some ++
          none :: [])).calls =
      (selectToPublish [⟨"a", "t", "", [], []⟩, ⟨"b", "u", "", [], []⟩] none true
        (tryLoadPublishState (.error "ENOENT")).state).take (1 + 1) :=
  execute_flushes_ledger_per_success "o/r" _ none true "publish-state.json" _ _ []
    (by decide) (by decide)

/-! ## C7: sorting by identifier -/

/-- The lexicographic strict order is irreflexive. -/
theorem lexLt_irrefl (a : List Char) : lexLt a a = false := by
  induction a with
  | nil => rfl
  | cons c cs ih => simp [lexLt, ih]

/-- The lexicographic strict order is transitive. -/
theorem lexLt_trans (a b c : List Char) (hab : lexLt a b = true)
    (hbc : lexLt b c = true) : lexLt a c = true := by
  induction a generalizing b c with
  | nil =>
    cases c with
    | nil =>
      cases b with
      | nil => exact hab
      | cons y ys => simp [lexLt] at hbc
    | cons z zs => simp [lexLt]
  | cons x xs ih =>
    cases b with
    | nil => simp [lexLt] at hab
    | cons y ys =>
      cases c with
      | nil => simp [lexLt] at hbc
      | cons z zs =>
        simp only [lexLt] at hab hbc ⊢
        by_cases hxy : x = y
        · subst hxy
          by_cases hyz : x = z
          · subst hyz
            simp only [if_pos rfl] at hab hbc ⊢
            exact ih ys zs hab hbc
          · simp only [if_pos rfl] at hab
            simp only [if_neg hyz] at hbc ⊢
            exact hbc
        · by_cases hyz : y = z
          · subst hyz
            simp only [if_neg hxy] at hab ⊢
            exact hab
          · simp only [if_neg hxy] at hab
            simp only [if_neg hyz] at hbc
            have h1 : x < y := of_decide_eq_true hab
            have h2 : y < z := of_decide_eq_true hbc
            have h3 : x < z := lt_trans h1 h2
            simp [ne_of_lt h3, h3]

/-- Two lists neither of which is lexicographically below the other are
equal. -/
theorem lexLt_conn (a b : List Char) (h1 : lexLt a b = false)
    (h2 : lexLt b a = false) : a = b := by
  induction a generalizing b with
  | nil =>
    cases b with
    | nil => rfl
    | cons y ys => simp [lexLt] at h1
  | cons x xs ih =>
    cases b with
    | nil => simp [lexLt] at h2
    | cons y ys =>
      simp only [lexLt] at h1 h2
      by_cases hxy : x = y
      · subst hxy
        simp only [if_pos rfl] at h1 h2
        rw [ih ys h1 h2]
      · simp only [if_neg hxy, if_neg (Ne.symm hxy)] at h1 h2
        have hn1 : ¬ x < y := of_decide_eq_false h1
        have hn2 : ¬ y < x := of_decide_eq_false h2
        exact absurd (le_antisymm (le_of_not_lt hn2) (le_of_not_lt hn1)) hxy

/-- `localeLe` is reflexive. -/
theorem localeLe_refl (a : String) : localeLe a a = true := by
  simp [localeLe, lexLt_irrefl]

/-- `localeLe` is total. -/
theorem localeLe_total (a b : String) : localeLe a b = true ∨ localeLe b a = true := by
  unfold localeLe
  by_cases h1 : lexLt b.data a.data
  · right
    by_cases h2 : lexLt a.data b.data
    · have := lexLt_trans _ _ _ h1 h2
      rw [lexLt_irrefl] at this
      cases this
    · simpa using h2
  · left
    simpa using h1

/-- `localeLe` is transitive. -/
theorem localeLe_trans (a b c : String) (h1 : localeLe a b = true)
    (h2 : localeLe b c = true) : localeLe a c = true := by
  unfold localeLe at h1 h2 ⊢
  have hba : lexLt b.data a.data = false := by simpa using h1
  have hcb : lexLt c.data b.data = false := by simpa using h2
  by_cases hca : lexLt c.data a.data
  · by_cases hbc : lexLt b.data c.data
    · have := lexLt_trans _ _ _ hbc hca
      rw [this] at hba
      cases hba
    · have hbceq : b.data = c.data := lexLt_conn _ _ (by simpa using hbc) hcb
      rw [← hbceq] at hca
      rw [hca] at hba
      cases hba
  · simpa using hca

/-- Membership in a stable insertion. -/
theorem mem_stableInsertBy {α : Type} (le : α → α → Bool) (x z : α) (l : List α) :
    z ∈ stableInsertBy le x l ↔ z = x ∨ z ∈ l := by
  induction l with
  | nil => simp [stableInsertBy]
  | cons y ys ih =>
    unfold stableInsertBy
    by_cases h : le x y
    · rw [if_pos h]
      simp
      try tauto
    · rw [if_neg h]
      simp [ih]
      tauto

/-- Stable insertion into a pairwise-ordered list preserves the ordering,
given totality and transitivity of the comparison. -/
theorem pairwise_stableInsertBy {α : Type} (le : α → α → Bool)
    (htot : ∀ a b, le a b = true ∨ le b a = true)
    (htrans : ∀ a b c, le a b = true → le b c = true → le a c = true)
    (x : α) (l : List α) (h : List.Pairwise (fun a b => le a b = true) l) :
    List.Pairwise (fun a b => le a b = true) (stableInsertBy le x l) := by
  induction l with
  | nil => simp [stableInsertBy]
  | cons y ys ih =>
    unfold stableInsertBy
    rcases List.pairwise_cons.mp h with ⟨hy, hys⟩
    by_cases hxy : le x y
    · rw [if_pos hxy]
      refine List.pairwise_cons.mpr ⟨?_, h⟩
      intro z hz
      rcases List.mem_cons.mp hz with hz | hz
      · rw [hz]; exact hxy
      · exact htrans x y z hxy (hy z hz)
    · rw [if_neg hxy]
      refine List.pairwise_cons.mpr ⟨?_, ih hys⟩
      intro z hz
      rcases (mem_stableInsertBy le x z ys).mp hz with hz | hz
      · rw [hz]
        rcases htot x y with hc | hc
        · exact absurd hc hxy
        · exact hc
      · exact hy z hz

/-- Stable insertion is a permutation of consing. -/
theorem perm_stableInsertBy {α : Type} (le : α → α → Bool) (x : α) (l : List α) :
    (stableInsertBy le x l).Perm (x :: l) := by
  induction l with
  | nil => simp [stableInsertBy]
  | cons y ys ih =>
    unfold stableInsertBy
    by_cases h : le x y
    · rw [if_pos h]
    · rw [if_neg h]
      exact (List.Perm.cons y ih).trans (List.Perm.swap x y ys)

/-- The stable sort is a permutation of its input. -/
theorem perm_stableSortBy {α : Type} (le : α → α → Bool) (l : List α) :
    (stableSortBy le l).Perm l := by
  induction l with
  | nil => simp [stableSortBy]
  | cons x xs ih =>
    exact (perm_stableInsertBy le x (stableSortBy le xs)).trans (List.Perm.cons x ih)

/-- The stable sort is pairwise ordered. -/
theorem pairwise_stableSortBy {α : Type} (le : α → α → Bool)
    (htot : ∀ a b, le a b = true ∨ le b a = true)
    (htrans : ∀ a b c, le a b = true → le b c = true → le a c = true)
    (l : List α) :
    List.Pairwise (fun a b => le a b = true) (stableSortBy le l) := by
  induction l with
  | nil => simp [stableSortBy]
  | cons x xs ih => exact pairwise_stableInsertBy le htot htrans x _ ih

/-- Filtering past a stable insertion of a matching element: the inserted
element comes first among the matches when it is below every match. -/
theorem filter_stableInsertBy_pos {α : Type} (le : α → α → Bool) (p : α → Bool)
    (x : α) (l : List α) (hx : p x = true)
    (hle : ∀ y, p y = true → le x y = true) :
    (stableInsertBy le x l).filter p = x :: l.filter p := by
  induction l with
  | nil => simp [stableInsertBy, hx]
  | cons y ys ih =>
    unfold stableInsertBy
    by_cases hxy : le x y
    · rw [if_pos hxy]
      simp [List.filter_cons, hx]
    · rw [if_neg hxy]
      have hpy : p y = false := by
        cases hy : p y with
        | false => rfl
        | true => exact absurd (hle y hy) hxy
      simp [List.filter_cons, hpy, ih]

/-- Filtering past a stable insertion of a non-matching element changes
nothing. -/
theorem filter_stableInsertBy_neg {α : Type} (le : α → α → Bool) (p : α → Bool)
    (x : α) (l : List α) (hx : p x = false) :
    (stableInsertBy le x l).filter p = l.filter p := by
  induction l with
  | nil => simp [stableInsertBy, hx]
  | cons y ys ih =>
    unfold stableInsertBy
    by_cases hxy : le x y
    · rw [if_pos hxy]
      simp [List.filter_cons, hx]
    · rw [if_neg hxy]
      simp [List.filter_cons, ih]

/-- Stability of the sort: filtering by any predicate whose matches are
mutually tied under the comparison yields the matches in input order. -/
theorem filter_stableSortBy {α : Type} (le : α → α → Bool) (p : α → Bool)
    (hcomp : ∀ a b, p a = true → p b = true → le a b = true) (l : List α) :
    (stableSortBy le l).filter p = l.filter p := by
  induction l with
  | nil => simp [stableSortBy]
  | cons x xs ih =>
    unfold stableSortBy
    cases hx : p x with
    | true =>
      rw [filter_stableInsertBy_pos le p x _ hx (fun y hy => hcomp x y hx hy), ih]
      simp [List.filter_cons, hx]
    | false =>
      rw [filter_stableInsertBy_neg le p x _ hx, ih]
      simp [List.filter_cons, hx]

/-! ## Duplicate-identifier collection (C5 background facts) -/

/-- Invariant of the duplicate-collection walk: an identifier ends up
collected iff it was already collected, or is a previously seen identifier
that occurs again in the remaining input, or occurs at least twice in the
remaining input. -/
theorem mem_collectDuplicatesAux (l : List String) :
    ∀ (seen dups : List String) (d : String),
      d ∈ collectDuplicatesAux seen dups l ↔
        d ∈ dups ∨ (d ∈ seen ∧ d ∈ l) ∨ 2 ≤ l.count d := by
  induction l with
  | nil =>
    intro seen dups d
    simp [collectDuplicatesAux]
  | cons x rest ih =>
    intro seen dups d
    unfold collectDuplicatesAux
    have hcnt : (x :: rest).count d = rest.count d + if d = x then 1 else 0 := by
      rw [List.count_cons]
      by_cases h : d = x
      · simp [h]
      · simp [h, Ne.symm h]
    rcases em (x ∈ seen) with hxs | hxs
    · have e2 : (if seen.contains x then seen else seen ++ [x]) = seen := by
        simp [List.contains, hxs]
      rcases em (x ∈ dups) with hxd | hxd
      · have e1 : (if seen.contains x && ! dups.contains x then dups ++ [x] else dups)
            = dups := by
          simp [List.contains, hxs, hxd]
        rw [e1, e2, ih]
        by_cases hdx : d = x
        · subst hdx
          simp [hxd]
        · have hm : (d ∈ x :: rest) ↔ d ∈ rest := by simp [List.mem_cons, hdx]
          rw [hm, hcnt]
          simp [hdx]
      · have e1 : (if seen.contains x && ! dups.contains x then dups ++ [x] else dups)
            = dups ++ [x] := by
          simp [List.contains, hxs, hxd]
        rw [e1, e2, ih]
        by_cases hdx : d = x
        · subst hdx
          simp [hxs, hcnt]
        · have hm : (d ∈ x :: rest) ↔ d ∈ rest := by simp [List.mem_cons, hdx]
          have hm2 : (d ∈ dups ++ [x]) ↔ d ∈ dups := by simp [hdx]
          rw [hm, hm2, hcnt]
          simp [hdx]
    · have e2 : (if seen.contains x then seen else seen ++ [x]) = seen ++ [x] := by
        simp [List.contains, hxs]
      have e1 : (if seen.contains x && ! dups.contains x then dups ++ [x] else dups)
          = dups := by
        simp [List.contains, hxs]
      rw [e1, e2, ih]
      by_cases hdx : d = x
      · subst hdx
        have hmem1 : (d ∈ seen ++ [d]) := by simp
        have hmemc : d ∈ rest ↔ 1 ≤ rest.count d := by
          rw [← List.count_pos_iff]
          omega
        rw [hcnt]
        have hone : (if d = d then (1 : Nat) else 0) = 1 := by simp
        rw [hone]
        constructor
        · rintro (h | ⟨_, hr⟩ | hc)
          · exact Or.inl h
          · right
            right
            have := hmemc.mp hr
            omega
          · right
            right
            omega
        · rintro (h | ⟨hf, _⟩ | hc)
          · exact Or.inl h
          · exact absurd hf hxs
          · right
            left
            exact ⟨hmem1, hmemc.mpr (by omega)⟩
      · have hm : (d ∈ x :: rest) ↔ d ∈ rest := by simp [List.mem_cons, hdx]
        have hm2 : (d ∈ seen ++ [x]) ↔ d ∈ seen := by simp [hdx]
        rw [hm, hm2, hcnt]
        simp [hdx]

/-- The duplicate collection never records an identifier twice. -/
theorem nodup_collectDuplicatesAux (l : List String) :
    ∀ (seen dups : List String), dups.Nodup → (collectDuplicatesAux seen dups l).Nodup := by
  induction l with
  | nil =>
    intro seen dups h
    exact h
  | cons x rest ih =>
    intro seen dups h
    unfold collectDuplicatesAux
    apply ih
    by_cases hx : seen.contains x && ! dups.contains x
    · rw [if_pos hx]
      have hxd : x ∉ dups := by
        have := (Bool.and_eq_true _ _).mp hx
        simpa [List.contains] using this.2
      simp [List.nodup_append, h, hxd]
    · rw [if_neg hx]
      exact h

/-! ## C8: owner-derived assignee parsing -/

/-- Helper: a list of non-terminator characters has no next line start. -/
theorem dropThroughLineTerminator_eq_nil (cs : List Char)
    (h : ∀ c ∈ cs, lineTerminator c = false) :
    dropThroughLineTerminator cs = [] := by
  induction cs with
  | nil => rfl
  | cons c rest ih =>
    unfold dropThroughLineTerminator
    rw [h c (by simp)]
    simp only [Bool.false_eq_true, if_false]
    exact ih (fun d hd => h d (by simp [hd]))

/-- Helper: the scan finds nothing in an exhausted input. -/
theorem scanOwnerCapture_nil (fuel : Nat) : scanOwnerCapture fuel [] = none := by
  cases fuel with
  | zero => rfl
  | succ n => rfl

/-- Helper: one unfolding of the scan on a non-empty input. -/
theorem scanOwnerCapture_cons (fuel : Nat) (c : Char) (cs : List Char) :
    scanOwnerCapture (fuel + 1) (c :: cs) =
      if ownerLabelChars.isPrefixOf (c :: cs) then
        match matchOwnerTail ((c :: cs).drop 6) with
        | some cap => some cap
        | none => scanOwnerCapture fuel (dropThroughLineTerminator (c :: cs))
      else scanOwnerCapture fuel (dropThroughLineTerminator (c :: cs)) := rfl

/-- Helper: `takeWhile` keeps a list all of whose elements satisfy the
predicate. -/
theorem takeWhile_eq_self_of_all {α : Type} (p : α → Bool) (l : List α)
    (h : ∀ c ∈ l, p c = true) : l.takeWhile p = l := by
  induction l with
  | nil => rfl
  | cons c rest ih =>
    rw [List.takeWhile_cons, h c (by simp), if_pos rfl,
      ih (fun d hd => h d (by simp [hd]))]

/-- Helper: `dropWhile` is idempotent. -/
theorem dropWhile_idem {α : Type} (p : α → Bool) (l : List α) :
    (l.dropWhile p).dropWhile p = l.dropWhile p := by
  induction l with
  | nil => rfl
  | cons c rest ih =>
    rw [List.dropWhile_cons]
    by_cases h : p c
    · rw [if_pos h]
      exact ih
    · rw [if_neg h, List.dropWhile_cons, if_neg h]

/-- Helper: trimming is unaffected by first removing leading whitespace. -/
theorem jsTrim_dropWhile (v : List Char) :
    jsTrim (v.dropWhile isJsWhitespace) = jsTrim v := by
  unfold jsTrim
  rw [dropWhile_idem]

/-- Helper: an all-whitespace list trims to nothing. -/
theorem jsTrim_eq_nil_of_all (v : List Char) (h : ∀ c ∈ v, isJsWhitespace c = true) :
    jsTrim v = [] := by
  unfold jsTrim
  have hd : v.dropWhile isJsWhitespace = [] := by
    rw [List.dropWhile_eq_nil_iff]
    intro c hc
    exact h c hc
  rw [hd]
  rfl

/-- Claim C8 is false on the code: for the body `Owner: alice, unassigned`
the code keeps the `unassigned` part (the sentinel test applies only to the
whole value, before splitting), while the claimed per-part dropping would
yield just `alice`. -/
theorem unassigned_part_kept_counterexample :
    parseAssigneesFromIssueBody "Owner: alice, unassigned" = ["alice", "unassigned"] ∧
    parseAssigneesSpecC8 "Owner: alice, unassigned" = ["alice"] := by
  exact ⟨by decide, by decide⟩

/-- Helper: a list is a prefix of itself followed by anything. -/
theorem isPrefixOf_append_self (p t : List Char) : p.isPrefixOf (p ++ t) = true := by
  induction p with
  | nil => simp [List.isPrefixOf]
  | cons a as ih => simp [List.isPrefixOf, ih]

/-- Helper: a pattern match that cannot reach a character absent from the
pattern is already a match on the part before that character. -/
theorem isPrefixOf_append_stops (p : List Char) (c : Char) :
    ∀ L r : List Char, c ∉ p → p.isPrefixOf (L ++ c :: r) = true →
      p.isPrefixOf L = true := by
  induction p with
  | nil =>
    intro L r _ _
    simp [List.isPrefixOf]
  | cons a as ih =>
    intro L r hc h
    cases L with
    | nil =>
      rw [List.nil_append] at h
      rw [show ((a :: as).isPrefixOf (c :: r)) = (a == c && as.isPrefixOf r)
        from rfl] at h
      have hsplit := (Bool.and_eq_true _ _).mp h
      have h1 : a = c := eq_of_beq hsplit.1
      rw [← h1] at hc
      exact absurd (List.mem_cons_self a as) hc
    | cons b bs =>
      rw [List.cons_append] at h
      rw [show ((a :: as).isPrefixOf (b :: (bs ++ c :: r)))
          = (a == b && as.isPrefixOf (bs ++ c :: r)) from rfl] at h
      have hsplit := (Bool.and_eq_true _ _).mp h
      rw [show ((a :: as).isPrefixOf (b :: bs)) = (a == b && as.isPrefixOf bs)
        from rfl]
      exact (Bool.and_eq_true _ _).mpr
        ⟨hsplit.1, ih bs r (fun hm => hc (List.mem_cons_of_mem a hm)) hsplit.2⟩

/-- Helper: advancing past a line terminator never lengthens the input. -/
theorem dropThroughLineTerminator_length (cs : List Char) :
    (dropThroughLineTerminator cs).length ≤ cs.length := by
  induction cs with
  | nil => exact Nat.le_refl 0
  | cons c rest ih =>
    unfold dropThroughLineTerminator
    by_cases h : lineTerminator c
    · rw [if_pos h, List.length_cons]
      omega
    · rw [if_neg h, List.length_cons]
      omega

/-- Helper: a terminator-free line followed by a line feed is consumed
exactly up to the start of the next line. -/
theorem dropThroughLineTerminator_append (L tail : List Char)
    (hL : ∀ c ∈ L, lineTerminator c = false) :
    dropThroughLineTerminator (L ++ '\n' :: tail) = tail := by
  induction L with
  | nil =>
    rw [List.nil_append]
    unfold dropThroughLineTerminator
    rw [if_pos (by decide : lineTerminator '\n' = true)]
  | cons a as ih =>
    rw [List.cons_append]
    unfold dropThroughLineTerminator
    rw [hL a (by simp)]
    simp only [Bool.false_eq_true, if_false]
    exact ih (fun c hc => hL c (by simp [hc]))

/-- Helper: any fuel at least the input length scans identically to fuel
equal to the input length (each scan step consumes at least one
character, so the exact fuel never runs out first). -/
theorem scanOwnerCapture_fuel_aux (n : Nat) :
    ∀ f, f ≤ n → ∀ cs : List Char, cs.length ≤ f →
      scanOwnerCapture f cs = scanOwnerCapture cs.length cs := by
  induction n with
  | zero =>
    intro f hf cs hcs
    have hf0 : f = 0 := by omega
    subst hf0
    cases cs with
    | nil => rfl
    | cons c rest =>
      rw [List.length_cons] at hcs
      omega
  | succ n ih =>
    intro f hf cs hcs
    rcases Nat.lt_or_ge f (n + 1) with h | h
    · exact ih f (by omega) cs hcs
    · have hf1 : f = n + 1 := by omega
      subst hf1
      cases cs with
      | nil => simp [scanOwnerCapture_nil]
      | cons c rest =>
        have hlen : (c :: rest).length = rest.length + 1 := List.length_cons c rest
        rw [scanOwnerCapture_cons n c rest, hlen,
          scanOwnerCapture_cons rest.length c rest]
        have hrl : rest.length ≤ n := by
          rw [hlen] at hcs
          omega
        have hd : (dropThroughLineTerminator (c :: rest)).length ≤ rest.length := by
          unfold dropThroughLineTerminator
          by_cases hterm : lineTerminator c
          · rw [if_pos hterm]
          · rw [if_neg hterm]
            exact dropThroughLineTerminator_length rest
        rw [ih n (Nat.le_refl n) (dropThroughLineTerminator (c :: rest))
            (Nat.le_trans hd hrl),
          ih rest.length hrl (dropThroughLineTerminator (c :: rest)) hd]

/-- Helper: the scan is fuel-insensitive above the input length. -/
theorem scanOwnerCapture_fuel (f : Nat) (cs : List Char) (h : cs.length ≤ f) :
    scanOwnerCapture f cs = scanOwnerCapture cs.length cs :=
  scanOwnerCapture_fuel_aux f f (Nat.le_refl f) cs h

/-- Helper: when the current line start does not carry the `Owner:` label,
the scan moves to the next line start. -/
theorem scanOwnerCapture_succ_not_owner (f : Nat) (cs : List Char)
    (hpre : ownerLabelChars.isPrefixOf cs = false) :
    scanOwnerCapture (f + 1) cs
      = scanOwnerCapture f (dropThroughLineTerminator cs) := by
  cases cs with
  | nil => simp [scanOwnerCapture_nil, dropThroughLineTerminator]
  | cons c rest =>
    rw [scanOwnerCapture_cons f c rest, hpre]
    rw [if_neg (by simp)]

/-- Helper: the scan skips a whole terminator-free line that does not start
with the `Owner:` label. -/
theorem scanOwnerCapture_skip_line (f : Nat) (L tail : List Char)
    (hL : ∀ c ∈ L, lineTerminator c = false)
    (hpre : ownerLabelChars.isPrefixOf L = false) :
    scanOwnerCapture (f + 1) (L ++ '\n' :: tail) = scanOwnerCapture f tail := by
  have hpre2 : ownerLabelChars.isPrefixOf (L ++ '\n' :: tail) = false := by
    cases hb : ownerLabelChars.isPrefixOf (L ++ '\n' :: tail) with
    | false => rfl
    | true =>
      have hL2 := isPrefixOf_append_stops ownerLabelChars '\n' L tail (by decide) hb
      rw [hpre] at hL2
      simp at hL2
  rw [scanOwnerCapture_succ_not_owner f _ hpre2,
    dropThroughLineTerminator_append L tail hL]

/-- Helper: the scan passes over a block of terminator-free lines none of
which starts with the `Owner:` label, landing on the remainder with exact
fuel. -/
theorem scanOwnerCapture_prefix_block (tail : List Char) :
    ∀ ls : List (List Char),
      (∀ L ∈ ls, (∀ c ∈ L, lineTerminator c = false) ∧
        ownerLabelChars.isPrefixOf L = false) →
      ∀ f : Nat, (ls.foldr (fun L acc => L ++ '\n' :: acc) tail).length ≤ f →
        scanOwnerCapture f (ls.foldr (fun L acc => L ++ '\n' :: acc) tail) =
          scanOwnerCapture tail.length tail := by
  intro ls
  induction ls with
  | nil =>
    intro _ f hf
    simp only [List.foldr_nil] at hf ⊢
    exact scanOwnerCapture_fuel f tail hf
  | cons L rest ih =>
    intro hls f hf
    simp only [List.foldr_cons] at hf ⊢
    cases f with
    | zero =>
      exfalso
      rw [List.length_append, List.length_cons] at hf
      omega
    | succ n =>
      rw [scanOwnerCapture_skip_line n L
          (rest.foldr (fun L acc => L ++ '\n' :: acc) tail)
          (hls L (by simp)).1 (hls L (by simp)).2]
      apply ih (fun L2 hL2 => hls L2 (by simp [hL2])) n
      rw [List.length_append, List.length_cons] at hf
      omega

/-- Helper: a terminator-free input without the `Owner:` label at its start
yields no match under any fuel. -/
theorem scanOwnerCapture_none_of_no_owner (f : Nat) (cs : List Char)
    (hlt : ∀ c ∈ cs, lineTerminator c = false)
    (hpre : ownerLabelChars.isPrefixOf cs = false) :
    scanOwnerCapture f cs = none := by
  cases f with
  | zero => rfl
  | succ n =>
    rw [scanOwnerCapture_succ_not_owner n cs hpre,
      dropThroughLineTerminator_eq_nil cs hlt, scanOwnerCapture_nil]

/-- Helper: one unfolding of the scan on an input that starts with the
`Owner: ` label: the regex tail matcher takes over right after the
label. -/
theorem scanOwnerCapture_owner_head (X : List Char) :
    scanOwnerCapture ("Owner: ".data ++ X).length ("Owner: ".data ++ X) =
      match matchOwnerTail (' ' :: X) with
      | some cap => some cap
      | none => scanOwnerCapture (("Owner: ".data ++ X).length - 1)
          (dropThroughLineTerminator ("Owner: ".data ++ X)) := by
  have hpre : ownerLabelChars.isPrefixOf ("Owner: ".data ++ X) = true := by
    rw [show ("Owner: ".data ++ X) = ownerLabelChars ++ (' ' :: X) from rfl]
    exact isPrefixOf_append_self ownerLabelChars (' ' :: X)
  rw [show ("Owner: ".data ++ X) = 'O' :: ("wner: ".data ++ X) from rfl]
  rw [show ('O' :: ("wner: ".data ++ X)).length = ("wner: ".data ++ X).length + 1
    from rfl]
  rw [scanOwnerCapture_cons]
  rw [show ('O' :: ("wner: ".data ++ X)) = ("Owner: ".data ++ X) from rfl]
  rw [hpre]
  rw [if_pos rfl]
  rfl

/-- Helper: dropping a leading-whitespace prefix distributes over an
appended continuation once the first list retains a character. -/
theorem dropWhile_append_left {α : Type} (p : α → Bool) (a b : List α)
    (w : α) (ws2 : List α) (h : a.dropWhile p = w :: ws2) :
    (a ++ b).dropWhile p = w :: (ws2 ++ b) := by
  induction a with
  | nil => simp at h
  | cons c cs ih =>
    rw [List.cons_append, List.dropWhile_cons]
    rw [List.dropWhile_cons] at h
    by_cases hc : p c
    · rw [if_pos hc] at h ⊢
      exact ih h
    · rw [if_neg hc] at h ⊢
      injection h with h1 h2
      rw [h1, h2]

/-- Helper: `takeWhile` over an append stops exactly at the first failing
character. -/
theorem takeWhile_append_stop {α : Type} (p : α → Bool) (L : List α) (c : α)
    (r : List α) (hL : ∀ x ∈ L, p x = true) (hc : p c = false) :
    (L ++ c :: r).takeWhile p = L := by
  induction L with
  | nil =>
    rw [List.nil_append, List.takeWhile_cons, hc]
    simp
  | cons a as ih =>
    rw [List.cons_append, List.takeWhile_cons, hL a (by simp), if_pos rfl,
      ih (fun x hx => hL x (by simp [hx]))]

/-- Claim C8 (amended): assignee derivation scans the body line by line and
the FIRST line carrying the `Owner:` label wins.  Over any block of
terminator-free prefix lines none of which starts with `Owner:`: (a) when
the next line is `Owner: v` with `v` terminator-free and containing a
non-whitespace character, followed by a line feed and an arbitrary
remainder (which may itself contain further `Owner:` lines), the result is
the whole-value pipeline of the trimmed value — an empty or, as a WHOLE and
case-insensitively, `unassigned` value yields no assignees, otherwise the
value is split on commas, each part trimmed, empty parts dropped and one
leading `@` stripped, with a part equal to `unassigned` kept; (b) when the
block is instead followed by one final terminator-free line without the
`Owner:` label (for instance a lowercase `owner:` line), the result is the
empty list and never an error. -/
theorem parseAssignees_first_owner_line
    (ls : List (List Char))
    (hls : ∀ L ∈ ls, (∀ c ∈ L, lineTerminator c = false) ∧
      ownerLabelChars.isPrefixOf L = false) :
    (∀ v rest : List Char, (∀ c ∈ v, lineTerminator c = false) →
      v.dropWhile isJsWhitespace ≠ [] →
      parseAssigneesFromIssueBody
          (String.mk (ls.foldr (fun L acc => L ++ '\n' :: acc)
            ("Owner: ".data ++ (v ++ '\n' :: rest)))) =
        (if (jsTrim v).isEmpty || toLowerChars (jsTrim v) = "unassigned".data then []
         else (((splitOnComma (jsTrim v)).map jsTrim).filter
             (fun p => ! p.isEmpty)).map (fun p => String.mk (stripLeadingAt p)))) ∧
    (∀ last : List Char, (∀ c ∈ last, lineTerminator c = false) →
      ownerLabelChars.isPrefixOf last = false →
      parseAssigneesFromIssueBody
          (String.mk (ls.foldr (fun L acc => L ++ '\n' :: acc) last)) = []) := by
  constructor
  · intro v rest hv hne
    cases hrest : v.dropWhile isJsWhitespace with
    | nil => exact absurd hrest hne
    | cons w ws2 =>
      have hmemsub : ∀ c ∈ w :: ws2, lineTerminator c = false := by
        intro c hc
        have h1 : c ∈ v.dropWhile isJsWhitespace := by
          rw [hrest]
          exact hc
        exact hv c ((List.dropWhile_sublist _).subset h1)
      have hdw : (v ++ '\n' :: rest).dropWhile isJsWhitespace
          = w :: (ws2 ++ '\n' :: rest) :=
        dropWhile_append_left isJsWhitespace v ('\n' :: rest) w ws2 hrest
      have hws : (' ' :: (v ++ '\n' :: rest)).dropWhile isJsWhitespace
          = (v ++ '\n' :: rest).dropWhile isJsWhitespace := by
        rw [List.dropWhile_cons]
        simp [isJsWhitespace]
      have htake : ((w :: ws2) ++ '\n' :: rest).takeWhile (fun x => ! lineTerminator x)
          = w :: ws2 :=
        takeWhile_append_stop (fun x => ! lineTerminator x) (w :: ws2) '\n' rest
          (fun x hx => by
            show (! lineTerminator x) = true
            rw [hmemsub x hx]
            decide)
          (by decide)
      have hmt : matchOwnerTail (' ' :: (v ++ '\n' :: rest)) = some (w :: ws2) := by
        unfold matchOwnerTail
        rw [hws, hdw]
        dsimp only
        rw [show (w :: (ws2 ++ '\n' :: rest)) = ((w :: ws2) ++ '\n' :: rest) from rfl]
        rw [htake]
      have htrimc : jsTrim (w :: ws2) = jsTrim v := by
        rw [← hrest]
        exact jsTrim_dropWhile v
      have hscan : scanOwnerCapture
          (ls.foldr (fun L acc => L ++ '\n' :: acc)
            ("Owner: ".data ++ (v ++ '\n' :: rest))).length
          (ls.foldr (fun L acc => L ++ '\n' :: acc)
            ("Owner: ".data ++ (v ++ '\n' :: rest))) = some (w :: ws2) := by
        rw [scanOwnerCapture_prefix_block ("Owner: ".data ++ (v ++ '\n' :: rest))
            ls hls _ (Nat.le_refl _)]
        rw [scanOwnerCapture_owner_head, hmt]
      unfold parseAssigneesFromIssueBody
      rw [show (String.mk (ls.foldr (fun L acc => L ++ '\n' :: acc)
          ("Owner: ".data ++ (v ++ '\n' :: rest)))).data
          = ls.foldr (fun L acc => L ++ '\n' :: acc)
            ("Owner: ".data ++ (v ++ '\n' :: rest)) from rfl]
      rw [hscan]
      simp only [htrimc]
  · intro last hlt hpre
    unfold parseAssigneesFromIssueBody
    rw [show (String.mk (ls.foldr (fun L acc => L ++ '\n' :: acc) last)).data
        = ls.foldr (fun L acc => L ++ '\n' :: acc) last from rfl]
    rw [scanOwnerCapture_prefix_block last ls hls _ (Nat.le_refl _)]
    rw [scanOwnerCapture_none_of_no_owner last.length last hlt hpre]

/-- Witness for the C8 theorem on a realistic draft body whose `Owner:`
line sits in the middle (the body reads `Project: demo`, `ID: gp-001`,
`Owner: alice, @bob`, a blank line, `Tasks:`), and on a body with no
`Owner:` line at all (its last line carries a lowercase `owner:`). -/
theorem parseAssignees_first_owner_line_witness :
    parseAssigneesFromIssueBody
        (String.mk (["Project: demo".data, "ID: gp-001".data].foldr
          (fun L acc => L ++ '\n' :: acc)
          ("Owner: ".data ++ ("alice, @bob".data ++ '\n' :: "\nTasks:".data)))) =
      (if (jsTrim "alice, @bob".data).isEmpty ||
          toLowerChars (jsTrim "alice, @bob".data) = "unassigned".data then []
       else (((splitOnComma (jsTrim "alice, @bob".data)).map jsTrim).filter
           (fun p => ! p.isEmpty)).map (fun p => String.mk (stripLeadingAt p))) ∧
    parseAssigneesFromIssueBody
        (String.mk (["Project: demo".data, "ID: gp-001".data].foldr
          (fun L acc => L ++ '\n' :: acc) "owner: alice".data)) = [] :=
  ⟨(parseAssignees_first_owner_line ["Project: demo".data, "ID: gp-001".data]
      (by decide)).left "alice, @bob".data "\nTasks:".data (by decide) (by decide),
   (parseAssignees_first_owner_line ["Project: demo".data, "ID: gp-001".data]
      (by decide)).right "owner: alice".data (by decide) (by decide)⟩

/-! ## C3: the CSV summary round-trip -/

/-- Parser step: end of input flushes the pending cell and row. -/
theorem parseCsvAux_nil (inQ : Bool) (cell : List Char) (cur : List String)
    (rows : List (List String)) :
    parseCsvAux [] inQ cell cur rows = rows ++ [cur ++ [String.mk cell]] := by
  cases inQ <;> rfl

/-- Parser step: a character that is not a quote, comma or line break is
appended to the cell in either mode. -/
theorem parseCsvAux_safe (c : Char) (rest : List Char) (inQ : Bool) (cell : List Char)
    (cur : List String) (rows : List (List String))
    (h1 : c ≠ '"') (h2 : c ≠ ',') (h3 : c ≠ '\n') (h4 : c ≠ '\r') :
    parseCsvAux (c :: rest) inQ cell cur rows = parseCsvAux rest inQ (cell ++ [c]) cur rows := by
  cases rest with
  | nil => cases inQ <;> simp [parseCsvAux, h1, h2, h3, h4]
  | cons d ds => cases inQ <;> simp [parseCsvAux, h1, h2, h3, h4]

/-- Parser step: inside quotes any non-quote character is appended. -/
theorem parseCsvAux_inq_append (c : Char) (rest : List Char) (cell : List Char)
    (cur : List String) (rows : List (List String)) (h1 : c ≠ '"') :
    parseCsvAux (c :: rest) true cell cur rows = parseCsvAux rest true (cell ++ [c]) cur rows := by
  by_cases h2 : c = ','
  · subst h2
    cases rest <;> simp [parseCsvAux]
  · by_cases h3 : c = '\n'
    · subst h3
      cases rest <;> simp [parseCsvAux]
    · by_cases h4 : c = '\r'
      · subst h4
        cases rest <;> simp [parseCsvAux]
      · exact parseCsvAux_safe c rest true cell cur rows h1 h2 h3 h4

/-- Parser step: an unquoted comma finishes the cell. -/
theorem parseCsvAux_comma_out (rest : List Char) (cell : List Char) (cur : List String)
    (rows : List (List String)) :
    parseCsvAux (',' :: rest) false cell cur rows =
      parseCsvAux rest false [] (cur ++ [String.mk cell]) rows := by
  cases rest <;> simp [parseCsvAux]

/-- Parser step: an unquoted line feed finishes the cell and the row. -/
theorem parseCsvAux_newline_out (rest : List Char) (cell : List Char) (cur : List String)
    (rows : List (List String)) :
    parseCsvAux ('\n' :: rest) false cell cur rows =
      parseCsvAux rest false [] [] (rows ++ [cur ++ [String.mk cell]]) := by
  cases rest <;> simp [parseCsvAux]

/-- Parser step: a quote outside quotes opens quoting. -/
theorem parseCsvAux_quote_open (rest : List Char) (cell : List Char) (cur : List String)
    (rows : List (List String)) :
    parseCsvAux ('"' :: rest) false cell cur rows = parseCsvAux rest true cell cur rows := by
  cases rest with
  | nil => simp [parseCsvAux]
  | cons d ds =>
    by_cases hd : d = '"'
    · subst hd
      simp [parseCsvAux]
    · simp [parseCsvAux, hd]

/-- Parser step: a quote inside quotes not followed by another quote closes
quoting. -/
theorem parseCsvAux_quote_close (rest : List Char) (cell : List Char) (cur : List String)
    (rows : List (List String)) (h : rest.head? ≠ some '"') :
    parseCsvAux ('"' :: rest) true cell cur rows = parseCsvAux rest false cell cur rows := by
  cases rest with
  | nil => simp [parseCsvAux]
  | cons d ds =>
    have hd : d ≠ '"' := by
      intro he
      subst he
      simp at h
    simp [parseCsvAux, hd]

/-- Parser step: a doubled quote inside quotes is unescaped. -/
theorem parseCsvAux_quote_pair (rest : List Char) (cell : List Char) (cur : List String)
    (rows : List (List String)) :
    parseCsvAux ('"' :: '"' :: rest) true cell cur rows =
      parseCsvAux rest true (cell ++ ['"']) cur rows := by
  simp [parseCsvAux]

/-- Consuming an unquoted-safe field appends it to the pending cell. -/
theorem parseCsvAux_consume_safe (f : List Char) (rest : List Char) (cell : List Char)
    (cur : List String) (rows : List (List String))
    (hf : ∀ c ∈ f, ¬ (c = '"' ∨ c = ',' ∨ c = '\n' ∨ c = '\r')) :
    parseCsvAux (f ++ rest) false cell cur rows =
      parseCsvAux rest false (cell ++ f) cur rows := by
  induction f generalizing cell with
  | nil => simp
  | cons c fs ih =>
    have hc := hf c (by simp)
    rw [List.cons_append, parseCsvAux_safe c _ false cell cur rows
      (fun h => hc (Or.inl h)) (fun h => hc (Or.inr (Or.inl h)))
      (fun h => hc (Or.inr (Or.inr (Or.inl h)))) (fun h => hc (Or.inr (Or.inr (Or.inr h))))]
    rw [ih (cell ++ [c]) (fun d hd => hf d (by simp [hd]))]
    simp

/-- Consuming the quote-doubled content and closing quote of a quoted field
appends the original field to the pending cell. -/
theorem parseCsvAux_consume_quoted_inner (f : List Char) (rest : List Char)
    (cell : List Char) (cur : List String) (rows : List (List String))
    (hrest : rest.head? ≠ some '"') :
    parseCsvAux (doubleQuotes f ++ '"' :: rest) true cell cur rows =
      parseCsvAux rest false (cell ++ f) cur rows := by
  induction f generalizing cell with
  | nil =>
    simp only [doubleQuotes, List.nil_append]
    rw [parseCsvAux_quote_close rest cell cur rows hrest]
    simp
  | cons c cs ih =>
    by_cases hc : c = '"'
    · subst hc
      rw [show doubleQuotes ('"' :: cs) = '"' :: '"' :: doubleQuotes cs from by
        simp [doubleQuotes]]
      rw [List.cons_append, List.cons_append, parseCsvAux_quote_pair]
      rw [ih (cell ++ ['"'])]
      simp
    · rw [show doubleQuotes (c :: cs) = c :: doubleQuotes cs from by
        simp [doubleQuotes, hc]]
      rw [List.cons_append, parseCsvAux_inq_append c _ cell cur rows hc]
      rw [ih (cell ++ [c])]
      simp

/-- Consuming an escaped field (as written by `escapeCsv`) appends the
original field to the pending cell, for any field free of bare carriage
returns and any continuation not starting with a quote. -/
theorem parseCsvAux_consume_field (f : List Char) (rest : List Char) (cell : List Char)
    (cur : List String) (rows : List (List String))
    (hf : ('\r' : Char) ∉ f) (hrest : rest.head? ≠ some '"') :
    parseCsvAux (escapeCsvChars f ++ rest) false cell cur rows =
      parseCsvAux rest false (cell ++ f) cur rows := by
  have hmem : ∀ a : Char, a ∈ f → (f.contains a = true) := fun a ha => by
    simpa [List.contains] using ha
  unfold escapeCsvChars
  by_cases hq : (f.contains ',' || f.contains '"' || f.contains '\n') = true
  · rw [if_pos hq]
    rw [show ('"' :: doubleQuotes f ++ ['"']) ++ rest =
      '"' :: (doubleQuotes f ++ '"' :: rest) from by simp]
    rw [parseCsvAux_quote_open]
    exact parseCsvAux_consume_quoted_inner f rest cell cur rows hrest
  · rw [if_neg hq]
    apply parseCsvAux_consume_safe
    intro c hcmem hor
    rcases hor with h | h | h | h
    · subst h
      exact hq (by simp [hcmem])
    · subst h
      exact hq (by simp [hcmem])
    · subst h
      exact hq (by simp [hcmem])
    · exact hf (h ▸ hcmem)

/-- Unpacking of the `csvSafeDraft` conditions. -/
theorem csvSafeDraft_spec (d : IssueDraft) (h : csvSafeDraft d = true) :
    (∀ c ∈ d.id.data, ¬ (c = '"' ∨ c = ',' ∨ c = '\n' ∨ c = '\r')) ∧
    ('\r' : Char) ∉ d.title.data ∧
    (∀ l ∈ d.labels, l.data ≠ [] ∧ (';' : Char) ∉ l.data ∧ ('\r' : Char) ∉ l.data ∧
      (∀ c, l.data.getLast? = some c → isJsWhitespace c = false)) := by
  unfold csvSafeDraft at h
  simp only [Bool.and_eq_true, List.all_eq_true] at h
  obtain ⟨⟨hid, htitle⟩, hlab⟩ := h
  refine ⟨?_, ?_, ?_⟩
  · intro c hc hor
    have := hid c hc
    rcases hor with h | h | h | h <;> simp [h] at this
  · intro hmem
    have : d.title.data.contains '\r' = true := by simpa [List.contains] using hmem
    rw [this] at htitle
    cases htitle
  · intro l hl
    have hthis := hlab l hl
    simp only [Bool.and_eq_true] at hthis
    obtain ⟨⟨⟨hne, hsemi⟩, hcr⟩, hlast⟩ := hthis
    refine ⟨?_, ?_, ?_, ?_⟩
    · intro he
      have h0 : l.data.isEmpty = false := by simpa using hne
      rw [he] at h0
      simp at h0
    · intro hm
      have : l.data.contains ';' = true := by simpa [List.contains] using hm
      rw [this] at hsemi
      cases hsemi
    · intro hm
      have : l.data.contains '\r' = true := by simpa [List.contains] using hm
      rw [this] at hcr
      cases hcr
    · intro c hc
      rw [hc] at hlast
      simpa using hlast

/-- Every character of a `;`-joined label list is a `;` or a character of
one of the labels. -/
theorem mem_joinSemicolon (ls : List String) (c : Char) :
    c ∈ joinSemicolon ls → c = ';' ∨ ∃ l ∈ ls, c ∈ l.data := by
  induction ls with
  | nil => intro hc; simp [joinSemicolon] at hc
  | cons s rest ih =>
    intro hc
    cases rest with
    | nil =>
      right
      exact ⟨s, by simp, by simpa [joinSemicolon] using hc⟩
    | cons t rest' =>
      rw [show joinSemicolon (s :: t :: rest') =
        s.data ++ ';' :: joinSemicolon (t :: rest') from rfl] at hc
      rcases List.mem_append.mp hc with h | h
      · right
        exact ⟨s, by simp, h⟩
      · rcases List.mem_cons.mp h with h | h
        · left
          exact h
        · rcases ih h with h1 | ⟨l, hl, hcl⟩
          · left
            exact h1
          · right
            exact ⟨l, by simp [hl], hcl⟩

/-- A `;`-join of non-empty labels is non-empty when the list is. -/
theorem joinSemicolon_ne_nil (ls : List String) (hne : ls ≠ [])
    (h : ∀ l ∈ ls, l.data ≠ []) : joinSemicolon ls ≠ [] := by
  cases ls with
  | nil => exact absurd rfl hne
  | cons s rest =>
    cases rest with
    | nil => simpa [joinSemicolon] using h s (by simp)
    | cons t rest' =>
      rw [show joinSemicolon (s :: t :: rest') =
        s.data ++ ';' :: joinSemicolon (t :: rest') from rfl]
      simp

/-- The last character of a `;`-join of labels none of which ends in
whitespace is not whitespace. -/
theorem joinSemicolon_last_safe (ls : List String)
    (h : ∀ l ∈ ls, l.data ≠ [] ∧ ∀ c, l.data.getLast? = some c → isJsWhitespace c = false) :
    ∀ c, (joinSemicolon ls).getLast? = some c → isJsWhitespace c = false := by
  induction ls with
  | nil =>
    intro c hc
    simp [joinSemicolon] at hc
  | cons s rest ih =>
    intro c hc
    cases rest with
    | nil => exact (h s (by simp)).2 c (by simpa [joinSemicolon] using hc)
    | cons t rest' =>
      rw [show joinSemicolon (s :: t :: rest') =
        s.data ++ ';' :: joinSemicolon (t :: rest') from rfl] at hc
      rw [List.getLast?_append_of_ne_nil _ (by simp)] at hc
      have hJne : joinSemicolon (t :: rest') ≠ [] :=
        joinSemicolon_ne_nil (t :: rest') (by simp) (fun l hl => (h l (by simp [hl])).1)
      cases hJ : joinSemicolon (t :: rest') with
      | nil => exact absurd hJ hJne
      | cons u us =>
        rw [hJ, List.getLast?_cons_cons] at hc
        apply ih (fun l hl => h l (by simp [hl])) c
        rw [hJ]
        exact hc

/-- Escaping preserves a safe last character (quoting ends in a quote, which
is not whitespace). -/
theorem escapeCsvChars_last_safe (v : List Char)
    (hv : ∀ c, v.getLast? = some c → isJsWhitespace c = false) :
    ∀ c, (escapeCsvChars v).getLast? = some c → isJsWhitespace c = false := by
  intro c hc
  unfold escapeCsvChars at hc
  by_cases hq : (v.contains ',' || v.contains '"' || v.contains '\n') = true
  · rw [if_pos hq] at hc
    rw [show ('"' :: doubleQuotes v ++ ['"']) = ('"' :: doubleQuotes v) ++ ['"'] from by
      simp] at hc
    rw [List.getLast?_append_of_ne_nil _ (by simp)] at hc
    have : '"' = c := by simpa using hc
    rw [← this]
    rfl
  · rw [if_neg hq] at hc
    exact hv c hc

/-- A summary CSV data row is non-empty and never ends in whitespace, under
the draft safety conditions. -/
theorem summaryCsvRow_last_safe (d : IssueDraft) (hd : csvSafeDraft d = true) :
    summaryCsvRow d ≠ [] ∧
    ∀ c, (summaryCsvRow d).getLast? = some c → isJsWhitespace c = false := by
  obtain ⟨_, _, hlab⟩ := csvSafeDraft_spec d hd
  constructor
  · unfold summaryCsvRow
    simp
  · intro c hc
    unfold summaryCsvRow at hc
    rw [List.getLast?_append_of_ne_nil _ (by simp)] at hc
    cases hL : escapeCsvChars (joinSemicolon d.labels) with
    | nil =>
      rw [hL] at hc
      have : ',' = c := by simpa using hc
      rw [← this]
      rfl
    | cons u us =>
      rw [hL, List.getLast?_cons_cons] at hc
      apply escapeCsvChars_last_safe (joinSemicolon d.labels) ?_ c ?_
      · exact joinSemicolon_last_safe d.labels
          (fun l hl => ⟨(hlab l hl).1, (hlab l hl).2.2.2⟩)
      · rw [hL]
        exact hc

/-- The header-or-row join starts with the first row's first character. -/
theorem joinRowsNewline_head_cons (r : List Char) (rs : List (List Char)) (hr : r ≠ []) :
    (joinRowsNewline (r :: rs)).head? = r.head? := by
  cases rs with
  | nil => rfl
  | cons s ss =>
    cases r with
    | nil => exact absurd rfl hr
    | cons c cs => rfl

/-- The last character of a join of safe non-empty rows is not
whitespace. -/
theorem joinRowsNewline_last_safe (rs : List (List Char))
    (h : ∀ r ∈ rs, r ≠ [] ∧ ∀ c, r.getLast? = some c → isJsWhitespace c = false) :
    ∀ c, (joinRowsNewline rs).getLast? = some c → isJsWhitespace c = false := by
  induction rs with
  | nil =>
    intro c hc
    simp [joinRowsNewline] at hc
  | cons r rs' ih =>
    intro c hc
    cases rs' with
    | nil => exact (h r (by simp)).2 c (by simpa [joinRowsNewline] using hc)
    | cons s ss =>
      rw [show joinRowsNewline (r :: s :: ss) =
        r ++ '\n' :: joinRowsNewline (s :: ss) from rfl] at hc
      rw [List.getLast?_append_of_ne_nil _ (by simp)] at hc
      have hJne : joinRowsNewline (s :: ss) ≠ [] := by
        cases ss with
        | nil => simpa [joinRowsNewline] using (h s (by simp)).1
        | cons t ts =>
          rw [show joinRowsNewline (s :: t :: ts) =
            s ++ '\n' :: joinRowsNewline (t :: ts) from rfl]
          simp
      cases hJ : joinRowsNewline (s :: ss) with
      | nil => exact absurd hJ hJne
      | cons u us =>
        rw [hJ, List.getLast?_cons_cons] at hc
        apply ih (fun x hx => h x (by simp [hx])) c
        rw [hJ]
        exact hc

/-- Trimming fixes a text whose first and last characters are not
whitespace. -/
theorem jsTrim_eq_self (cs : List Char)
    (h1 : ∀ c, cs.head? = some c → isJsWhitespace c = false)
    (h2 : ∀ c, cs.getLast? = some c → isJsWhitespace c = false) :
    jsTrim cs = cs := by
  unfold jsTrim
  have d1 : cs.dropWhile isJsWhitespace = cs := by
    cases cs with
    | nil => rfl
    | cons c cs' =>
      rw [List.dropWhile_cons, h1 c rfl]
      simp
  rw [d1]
  have d2 : cs.reverse.dropWhile isJsWhitespace = cs.reverse := by
    cases hrev : cs.reverse with
    | nil => rfl
    | cons c cs' =>
      have hlast : cs.getLast? = some c := by
        rw [← List.head?_reverse, hrev]
        rfl
      rw [List.dropWhile_cons, h2 c hlast]
      simp
  rw [d2, List.reverse_reverse]

/-- The written summary text survives the reader's trim unchanged. -/
theorem writeSummaryCsv_trim_id (issues : List IssueDraft)
    (h : ∀ d ∈ issues, csvSafeDraft d = true) :
    jsTrim (writeSummaryCsv issues).data = (writeSummaryCsv issues).data := by
  apply jsTrim_eq_self
  · intro c hc
    rw [show (writeSummaryCsv issues).data =
      joinRowsNewline (csvHeader :: issues.map summaryCsvRow) from rfl] at hc
    rw [joinRowsNewline_head_cons csvHeader _ (by decide)] at hc
    have : 'i' = c := by
      rw [show csvHeader.head? = some 'i' from rfl] at hc
      simpa using hc
    rw [← this]
    rfl
  · intro c hc
    rw [show (writeSummaryCsv issues).data =
      joinRowsNewline (csvHeader :: issues.map summaryCsvRow) from rfl] at hc
    apply joinRowsNewline_last_safe (csvHeader :: issues.map summaryCsvRow) ?_ c hc
    intro r hr
    rcases List.mem_cons.mp hr with hr | hr
    · rw [hr]
      exact ⟨by decide, by decide⟩
    · obtain ⟨d, hd, hrd⟩ := List.mem_map.mp hr
      rw [← hrd]
      exact summaryCsvRow_last_safe d (h d hd)

/-- Parsing one written data row followed by a line feed produces exactly
its three cells. -/
theorem parseCsv_row_then_newline (d : IssueDraft) (hd : csvSafeDraft d = true)
    (more : List Char) (rows : List (List String)) :
    parseCsvAux (summaryCsvRow d ++ '\n' :: more) false [] [] rows =
      parseCsvAux more false [] [] (rows ++ [summaryRowCells d]) := by
  obtain ⟨hid, htitle, hlab⟩ := csvSafeDraft_spec d hd
  have hjoin_cr : ('\r' : Char) ∉ joinSemicolon d.labels := by
    intro hm
    rcases mem_joinSemicolon d.labels '\r' hm with h | ⟨l, hl, hcl⟩
    · exact absurd h (by decide)
    · exact (hlab l hl).2.2.1 hcl
  rw [show summaryCsvRow d ++ '\n' :: more =
      d.id.data ++ (',' :: (escapeCsvChars d.title.data ++
        (',' :: (escapeCsvChars (joinSemicolon d.labels) ++ ('\n' :: more))))) from by
    unfold summaryCsvRow
    simp]
  rw [parseCsvAux_consume_safe d.id.data _ [] [] rows hid]
  rw [parseCsvAux_comma_out]
  rw [parseCsvAux_consume_field d.title.data _ [] _ rows htitle (by simp)]
  rw [parseCsvAux_comma_out]
  rw [parseCsvAux_consume_field (joinSemicolon d.labels) _ [] _ rows hjoin_cr (by simp)]
  rw [parseCsvAux_newline_out]
  have heta : ∀ s : String, String.mk s.data = s := fun s => rfl
  simp [summaryRowCells, heta]

/-- Parsing the final written data row (no trailing newline) flushes its
three cells at end of input. -/
theorem parseCsv_row_at_end (d : IssueDraft) (hd : csvSafeDraft d = true)
    (rows : List (List String)) :
    parseCsvAux (summaryCsvRow d) false [] [] rows = rows ++ [summaryRowCells d] := by
  obtain ⟨hid, htitle, hlab⟩ := csvSafeDraft_spec d hd
  have hjoin_cr : ('\r' : Char) ∉ joinSemicolon d.labels := by
    intro hm
    rcases mem_joinSemicolon d.labels '\r' hm with h | ⟨l, hl, hcl⟩
    · exact absurd h (by decide)
    · exact (hlab l hl).2.2.1 hcl
  rw [show summaryCsvRow d =
      d.id.data ++ (',' :: (escapeCsvChars d.title.data ++
        (',' :: (escapeCsvChars (joinSemicolon d.labels) ++ [])))) from by
    unfold summaryCsvRow
    simp]
  rw [parseCsvAux_consume_safe d.id.data _ [] [] rows hid]
  rw [parseCsvAux_comma_out]
  rw [parseCsvAux_consume_field d.title.data _ [] _ rows htitle (by simp)]
  rw [parseCsvAux_comma_out]
  rw [parseCsvAux_consume_field (joinSemicolon d.labels) _ [] _ rows hjoin_cr (by simp)]
  rw [parseCsvAux_nil]
  have heta : ∀ s : String, String.mk s.data = s := fun s => rfl
  simp [summaryRowCells, heta]

/-- Parsing the newline-joined written data rows appends their cell rows in
order. -/
theorem parseCsv_rows (ds : List IssueDraft) (hds : ∀ d ∈ ds, csvSafeDraft d = true)
    (rows : List (List String)) (hne : ds ≠ []) :
    parseCsvAux (joinRowsNewline (ds.map summaryCsvRow)) false [] [] rows =
      rows ++ ds.map summaryRowCells := by
  induction ds generalizing rows with
  | nil => exact absurd rfl hne
  | cons d ds' ih =>
    cases ds' with
    | nil =>
      rw [show joinRowsNewline (([d] : List IssueDraft).map summaryCsvRow) =
        summaryCsvRow d from rfl]
      rw [parseCsv_row_at_end d (hds d (by simp)) rows]
      rfl
    | cons e es =>
      rw [show joinRowsNewline ((d :: e :: es).map summaryCsvRow) =
          summaryCsvRow d ++ '\n' :: joinRowsNewline ((e :: es).map summaryCsvRow) from rfl]
      rw [parseCsv_row_then_newline d (hds d (by simp)) _ rows]
      rw [ih (fun x hx => hds x (by simp [hx])) (rows ++ [summaryRowCells d]) (by simp)]
      simp

/-- Parsing the header line produces the expected header cells. -/
theorem parseCsv_header_line (rest : List Char) :
    parseCsvAux (csvHeader ++ '\n' :: rest) false [] [] [] =
      parseCsvAux rest false [] [] [["id", "title", "labels"]] := by
  rw [show csvHeader ++ '\n' :: rest = "id".data ++ (',' :: ("title".data ++
    (',' :: ("labels".data ++ ('\n' :: rest))))) from rfl]
  rw [parseCsvAux_consume_safe "id".data _ [] [] [] (by decide)]
  rw [parseCsvAux_comma_out]
  rw [parseCsvAux_consume_safe "title".data _ [] _ [] (by decide)]
  rw [parseCsvAux_comma_out]
  rw [parseCsvAux_consume_safe "labels".data _ [] _ [] (by decide)]
  rw [parseCsvAux_newline_out]
  exact congrArg (parseCsvAux rest false [] []) (by decide)

/-- A `;`-free character list splits into itself. -/
theorem splitOnSemi_no_semi (cs : List Char) (h : (';' : Char) ∉ cs) :
    splitOnSemi cs = [cs] := by
  induction cs with
  | nil => rfl
  | cons c rest ih =>
    simp only [splitOnSemi]
    have hc : c ≠ ';' := by
      intro he
      exact h (by simp [he])
    rw [if_neg hc]
    rw [ih (fun hm => h (by simp [hm]))]

/-- Splitting after a `;`-free prefix peels the prefix off. -/
theorem splitOnSemi_append (a b : List Char) (h : (';' : Char) ∉ a) :
    splitOnSemi (a ++ ';' :: b) = a :: splitOnSemi b := by
  induction a with
  | nil =>
    rw [List.nil_append]
    rfl
  | cons c rest ih =>
    rw [List.cons_append]
    simp only [splitOnSemi]
    have hc : c ≠ ';' := by
      intro he
      exact h (by simp [he])
    rw [if_neg hc]
    rw [ih (fun hm => h (by simp [hm]))]

/-- Splitting the `;`-join of non-empty `;`-free labels and dropping empty
parts recovers the labels. -/
theorem split_join_labels (ls : List String)
    (h : ∀ l ∈ ls, l.data ≠ [] ∧ (';' : Char) ∉ l.data) :
    ((splitOnSemi (joinSemicolon ls)).map String.mk).filter (fun s => ! (s = "")) = ls := by
  induction ls with
  | nil => rfl
  | cons l rest ih =>
    have hlne : ¬ (String.mk l.data = "") := by
      intro he
      have : l.data = [] := by
        have := congrArg String.data he
        simpa using this
      exact (h l (by simp)).1 this
    cases rest with
    | nil =>
      rw [show joinSemicolon [l] = l.data from rfl]
      rw [splitOnSemi_no_semi l.data (h l (by simp)).2]
      simp only [List.map_cons, List.map_nil, List.filter]
      simp [hlne]
    | cons t ts =>
      rw [show joinSemicolon (l :: t :: ts) = l.data ++ ';' :: joinSemicolon (t :: ts)
        from rfl]
      rw [splitOnSemi_append l.data _ (h l (by simp)).2]
      simp only [List.map_cons, List.filter]
      rw [show ((splitOnSemi (joinSemicolon (t :: ts))).map String.mk).filter
        (fun s => ! (s = "")) = t :: ts from ih (fun x hx => h x (by simp [hx]))]
      simp [hlne]

/-- The reader's row projection inverts the writer's cells. -/
theorem summaryRowOfCells_cells (d : IssueDraft)
    (h : ∀ l ∈ d.labels, l.data ≠ [] ∧ (';' : Char) ∉ l.data) :
    summaryRowOfCells (summaryRowCells d) = ⟨d.id, d.title, d.labels⟩ := by
  have hshow : summaryRowOfCells (summaryRowCells d) =
      ⟨d.id, d.title,
        if String.mk (joinSemicolon d.labels) = "" then []
        else ((splitOnSemi (joinSemicolon d.labels)).map String.mk).filter
          (fun s => ! (s = ""))⟩ := rfl
  rw [hshow]
  cases hls : d.labels with
  | nil =>
    have hcond : String.mk (joinSemicolon ([] : List String)) = "" := rfl
    rw [if_pos hcond]
  | cons l rest =>
    have hjne : joinSemicolon (l :: rest) ≠ [] :=
      joinSemicolon_ne_nil (l :: rest) (by simp)
        (fun x hx => (h x (by rw [hls]; exact hx)).1)
    have hmkne : ¬ (String.mk (joinSemicolon (l :: rest)) = "") := by
      intro he
      exact hjne (by simpa using congrArg String.data he)
    rw [if_neg hmkne]
    rw [show ((splitOnSemi (joinSemicolon (l :: rest))).map String.mk).filter
        (fun s => ! (s = "")) = l :: rest from
      split_join_labels (l :: rest) (fun x hx => h x (by rw [hls]; exact hx))]

/-- Claim C3 is false on the code as universally stated: a label containing
the `;` flattening separator does not survive the round trip — the single
draft with label `x;y` reads back with labels `x` and `y`. -/
theorem csv_roundtrip_counterexample :
    loadSummaryCsv (writeSummaryCsv [⟨"a", "t", "", ["x;y"]⟩]) =
      .ok [⟨"a", "t", ["x", "y"]⟩] ∧
    loadSummaryCsv (writeSummaryCsv [⟨"a", "t", "", ["x;y"]⟩]) ≠
      .ok ([(⟨"a", "t", "", ["x;y"]⟩ : IssueDraft)].map
        (fun d => SummaryRow.mk d.id d.title d.labels)) := by
  exact ⟨by decide, by decide⟩

/-- Claim C3 (amended): for every list of drafts whose ids contain no CSV
metacharacter (comma, quote, line feed, carriage return), whose titles
contain no carriage return, and whose labels are non-empty, free of `;` and
carriage returns and do not end in whitespace, writing the CSV summary and
reading it back yields exactly the originating id, title and label list of
each draft, in order. -/
theorem writeSummary_loadSummary_roundtrip (issues : List IssueDraft)
    (h : ∀ d ∈ issues, csvSafeDraft d = true) :
    loadSummaryCsv (writeSummaryCsv issues) =
      .ok (issues.map (fun d => SummaryRow.mk d.id d.title d.labels)) := by
  cases issues with
  | nil => decide
  | cons d ds =>
    unfold loadSummaryCsv
    rw [writeSummaryCsv_trim_id (d :: ds) h]
    have hne : (writeSummaryCsv (d :: ds)).data.isEmpty = false := by
      rw [show (writeSummaryCsv (d :: ds)).data =
        joinRowsNewline (csvHeader :: (d :: ds).map summaryCsvRow) from rfl]
      rw [show ((d :: ds).map summaryCsvRow) = summaryCsvRow d :: ds.map summaryCsvRow
        from rfl]
      rw [show joinRowsNewline (csvHeader :: summaryCsvRow d :: ds.map summaryCsvRow) =
        csvHeader ++ '\n' :: joinRowsNewline (summaryCsvRow d :: ds.map summaryCsvRow)
        from rfl]
      rfl
    rw [hne]
    simp only [Bool.false_eq_true, if_false]
    rw [show (writeSummaryCsv (d :: ds)).data =
      csvHeader ++ '\n' :: joinRowsNewline ((d :: ds).map summaryCsvRow) from rfl]
    unfold parseCsv
    rw [parseCsv_header_line]
    rw [parseCsv_rows (d :: ds) h _ (by simp)]
    rw [show ([["id", "title", "labels"]] ++ (d :: ds).map summaryRowCells) =
      ["id", "title", "labels"] :: (d :: ds).map summaryRowCells from rfl]
    change Except.ok (((d :: ds).map summaryRowCells).map summaryRowOfCells) =
      Except.ok ((d :: ds).map (fun x => SummaryRow.mk x.id x.title x.labels))
    rw [List.map_map]
    refine congrArg Except.ok (List.map_congr_left ?_)
    intro x hx
    have hx' := csvSafeDraft_spec x (h x hx)
    exact summaryRowOfCells_cells x
      (fun l hl => ⟨(hx'.2.2 l hl).1, (hx'.2.2 l hl).2.1⟩)

/-- Witness for the amended C3 theorem: a quoted title with comma and
quote, and two plain labels, round-trip exactly. -/
theorem writeSummary_loadSummary_roundtrip_witness :
    loadSummaryCsv (writeSummaryCsv [⟨"gp-001", "hello, \"world\"", "", ["docs", "p1"]⟩]) =
      .ok ([(⟨"gp-001", "hello, \"world\"", "", ["docs", "p1"]⟩ : IssueDraft)].map
        (fun d => SummaryRow.mk d.id d.title d.labels)) :=
  writeSummary_loadSummary_roundtrip [⟨"gp-001", "hello, \"world\"", "", ["docs", "p1"]⟩]
    (by decide)

end ProjectPilot
